import Mathlib

/-!
Verification of the OpenAPI minifier core (`src/minifier.ts`, `src/parser.ts`,
`src/utils.ts`).  The document tree is embedded as a `Json` inductive; the
minification passes are translated function by function from the TypeScript
source, keeping the source's names.  JavaScript objects are modelled as
association lists in insertion order (`jset` overwrites in place and appends
new keys at the end, `jdel` removes a key, mirroring property assignment and
`delete`); JavaScript truthiness is modelled by `truthy`.
-/

namespace OpenapiMin

/-- A JSON-like document value (string, number, boolean, null, array, object).
Objects keep their key insertion order, as JavaScript objects do. -/
inductive Json where
  | str  (s : String)
  | num  (n : Int)
  | bool (b : Bool)
  | null
  | arr  (xs : List Json)
  | obj  (fs : List (String × Json))
deriving Repr

/-- The fields of a JSON object. -/
abbrev JObj := List (String × Json)

/-- Property read: the value of the first binding of `k` (JS `obj[k]`,
`none` for `undefined`). -/
def jget (fs : JObj) (k : String) : Option Json :=
  match fs with
  | [] => none
  | (k', v) :: rest => if k' = k then some v else jget rest k

/-- Property write (JS `obj[k] = v`): overwrite in place if the key exists,
otherwise append at the end, as JS insertion order does. -/
def jset (fs : JObj) (k : String) (v : Json) : JObj :=
  match fs with
  | [] => [(k, v)]
  | (k', v') :: rest => if k' = k then (k', v) :: rest else (k', v') :: jset rest k v

/-- Property deletion (JS `delete obj[k]`). -/
def jdel (fs : JObj) (k : String) : JObj :=
  fs.filter (fun p => p.1 ≠ k)

/-- Key presence (JS `k in obj`). -/
def hasKey (fs : JObj) (k : String) : Bool :=
  (jget fs k).isSome

/-- `isObject` from `src/utils.ts`: a non-null object that is not an array. -/
def isObject : Json → Bool
  | .obj _ => true
  | _ => false

/-- The fields of a value that `isObject` accepts. -/
def getObj : Json → Option JObj
  | .obj fs => some fs
  | _ => none

/-- JavaScript truthiness of a JSON value (`""`, `0`, `false`, `null` are
falsy; every object and array is truthy). -/
def truthy : Json → Bool
  | .str s => s ≠ ""
  | .num n => n ≠ 0
  | .bool b => b
  | .null => false
  | .arr _ => true
  | .obj _ => true

/-- Truthiness of a possibly absent value (`undefined` is falsy). -/
def truthyOpt : Option Json → Bool
  | some v => truthy v
  | none => false

/-- Property read on a value: `none` unless the value is an object holding
the key. -/
def jgetJ (j : Json) (k : String) : Option Json :=
  match j with
  | .obj fs => jget fs k
  | _ => none

/-- Property write on a value; a non-object is left unchanged (the source
only assigns to values it has checked to be objects). -/
def jsetJ (j : Json) (k : String) (v : Json) : Json :=
  match j with
  | .obj fs => .obj (jset fs k v)
  | _ => j

/-- Property deletion on a value. -/
def jdelJ (j : Json) (k : String) : Json :=
  match j with
  | .obj fs => .obj (jdel fs k)
  | _ => j

/-- Read along a path of keys. -/
def jgetPath (j : Json) : List String → Option Json
  | [] => some j
  | k :: ks =>
    match jgetJ j k with
    | some v => jgetPath v ks
    | none => none

mutual
/-- Node count of a value, used as traversal fuel. -/
def jsize : Json → Nat
  | .str _ => 1
  | .num _ => 1
  | .bool _ => 1
  | .null => 1
  | .arr xs => 1 + jsizeArr xs
  | .obj fs => 1 + jsizeObj fs
def jsizeArr : List Json → Nat
  | [] => 0
  | x :: xs => jsize x + jsizeArr xs
def jsizeObj : List (String × Json) → Nat
  | [] => 0
  | (_, v) :: fs => jsize v + jsizeObj fs
end

/-- JSON string quoting as `JSON.stringify` performs it (escapes for
quote, backslash and the common control characters). -/
def quoteChar (c : Char) : String :=
  if c = '"' then "\\\""
  else if c = '\\' then "\\\\"
  else if c = '\n' then "\\n"
  else if c = '\t' then "\\t"
  else if c = '\r' then "\\r"
  else String.singleton c

def quoteString (s : String) : String :=
  "\"" ++ String.join (s.toList.map quoteChar) ++ "\""

mutual
/-- Compact `JSON.stringify` (no whitespace), as the serializer and the
canonicalization keys use it. -/
def stringify : Json → String
  | .str s => quoteString s
  | .num n => toString n
  | .bool b => cond b "true" "false"
  | .null => "null"
  | .arr xs => "[" ++ stringifyArr xs ++ "]"
  | .obj fs => "\x7b" ++ stringifyObj fs ++ "\x7d"
def stringifyArr : List Json → String
  | [] => ""
  | [x] => stringify x
  | x :: y :: xs => stringify x ++ "," ++ stringifyArr (y :: xs)
def stringifyObj : List (String × Json) → String
  | [] => ""
  | [(k, v)] => quoteString k ++ ":" ++ stringify v
  | (k, v) :: p :: fs => quoteString k ++ ":" ++ stringify v ++ "," ++ stringifyObj (p :: fs)
end

mutual
/-- `deepClone` from `src/utils.ts`, translated structurally (the Date case
cannot arise in a parsed JSON document). -/
def deepClone : Json → Json
  | .str s => .str s
  | .num n => .num n
  | .bool b => .bool b
  | .null => .null
  | .arr xs => .arr (deepCloneArr xs)
  | .obj fs => .obj (deepCloneObj fs)
def deepCloneArr : List Json → List Json
  | [] => []
  | x :: xs => deepClone x :: deepCloneArr xs
def deepCloneObj : List (String × Json) → List (String × Json)
  | [] => []
  | (k, v) :: fs => (k, deepClone v) :: deepCloneObj fs
end

mutual
/-- Structural equality test on values (used to build decidable equality). -/
def jeq : Json → Json → Bool
  | .str a, .str b => a = b
  | .num a, .num b => a = b
  | .bool a, .bool b => a = b
  | .null, .null => true
  | .arr a, .arr b => jeqArr a b
  | .obj a, .obj b => jeqObj a b
  | _, _ => false
def jeqArr : List Json → List Json → Bool
  | [], [] => true
  | x :: xs, y :: ys => jeq x y && jeqArr xs ys
  | _, _ => false
def jeqObj : List (String × Json) → List (String × Json) → Bool
  | [], [] => true
  | (k, v) :: fs, (k', v') :: gs => k = k' && jeq v v' && jeqObj fs gs
  | _, _ => false
end

mutual
theorem jeq_iff : ∀ a b : Json, jeq a b = true ↔ a = b
  | .str a, .str b => by simp [jeq]
  | .str _, .num _ => by simp [jeq]
  | .str _, .bool _ => by simp [jeq]
  | .str _, .null => by simp [jeq]
  | .str _, .arr _ => by simp [jeq]
  | .str _, .obj _ => by simp [jeq]
  | .num _, .str _ => by simp [jeq]
  | .num a, .num b => by simp [jeq]
  | .num _, .bool _ => by simp [jeq]
  | .num _, .null => by simp [jeq]
  | .num _, .arr _ => by simp [jeq]
  | .num _, .obj _ => by simp [jeq]
  | .bool _, .str _ => by simp [jeq]
  | .bool _, .num _ => by simp [jeq]
  | .bool a, .bool b => by simp [jeq]
  | .bool _, .null => by simp [jeq]
  | .bool _, .arr _ => by simp [jeq]
  | .bool _, .obj _ => by simp [jeq]
  | .null, .str _ => by simp [jeq]
  | .null, .num _ => by simp [jeq]
  | .null, .bool _ => by simp [jeq]
  | .null, .null => by simp [jeq]
  | .null, .arr _ => by simp [jeq]
  | .null, .obj _ => by simp [jeq]
  | .arr _, .str _ => by simp [jeq]
  | .arr _, .num _ => by simp [jeq]
  | .arr _, .bool _ => by simp [jeq]
  | .arr _, .null => by simp [jeq]
  | .arr a, .arr b => by simp [jeq, jeqArr_iff a b]
  | .arr _, .obj _ => by simp [jeq]
  | .obj _, .str _ => by simp [jeq]
  | .obj _, .num _ => by simp [jeq]
  | .obj _, .bool _ => by simp [jeq]
  | .obj _, .null => by simp [jeq]
  | .obj _, .arr _ => by simp [jeq]
  | .obj a, .obj b => by simp [jeq, jeqObj_iff a b]
theorem jeqArr_iff : ∀ a b : List Json, jeqArr a b = true ↔ a = b
  | [], [] => by simp [jeqArr]
  | [], _ :: _ => by simp [jeqArr]
  | _ :: _, [] => by simp [jeqArr]
  | x :: xs, y :: ys => by
    simp [jeqArr, jeq_iff x y, jeqArr_iff xs ys]
theorem jeqObj_iff : ∀ a b : List (String × Json), jeqObj a b = true ↔ a = b
  | [], [] => by simp [jeqObj]
  | [], _ :: _ => by simp [jeqObj]
  | _ :: _, [] => by simp [jeqObj]
  | (k, v) :: fs, (k', v') :: gs => by
    simp [jeqObj, jeq_iff v v', jeqObj_iff fs gs, and_assoc]
end

instance : DecidableEq Json :=
  fun a b => decidable_of_iff (jeq a b = true) (jeq_iff a b)

/-- `MinificationOptions` from `src/types.ts`.  `keepDescriptions` is one of
the strings `all`, `schema-only`, `none`; `preset` is optional. -/
structure MinificationOptions where
  keepExamples : Bool
  keepDescriptions : String
  keepSummaries : Bool
  keepTags : Bool
  removeDeprecated : Bool
  extractCommonResponses : Bool
  extractCommonSchemas : Bool
  validate : Bool
  preset : Option String

/-- JavaScript `\s` for the character set used by the documents (ASCII). -/
def isWsChar (c : Char) : Bool :=
  c = ' ' || c = '\t' || c = '\n' || c = '\r' || c = '\x0b' || c = '\x0c'

def isDigitChar (c : Char) : Bool :=
  '0' ≤ c && c ≤ '9'

/-- Split at the first occurrence of `t`: the characters before it and the
remainder after it. -/
def dropThrough (t : Char) : List Char → Option (List Char × List Char)
  | [] => none
  | c :: rest =>
    if c = t then some ([], rest)
    else
      match dropThrough t rest with
      | some (pre, post) => some (c :: pre, post)
      | none => none

/-- Global replace of `<[^>]*>` by the empty string (HTML tag stripping).
Fuel-driven so the kernel can evaluate it; each step consumes at least one
character, so `length + 1` fuel always suffices. -/
def stripHtmlF : Nat → List Char → List Char
  | 0, l => l
  | _ + 1, [] => []
  | fuel + 1, c :: rest =>
    if c = '<' then
      match dropThrough '>' rest with
      | some p => stripHtmlF fuel p.2
      | none => c :: stripHtmlF fuel rest
    else c :: stripHtmlF fuel rest

def stripHtml (l : List Char) : List Char := stripHtmlF (l.length + 1) l

/-- The tail of an `od ([^bar]+) cd` match, after the opening delimiter:
the captured run and the remainder after the closing delimiter. -/
def matchDelimTail (bar : Char) (cd : List Char) (r : List Char) :
    Option (List Char × List Char) :=
  if r.takeWhile (fun c => c ≠ bar) ≠ [] &&
      cd.isPrefixOf (r.dropWhile (fun c => c ≠ bar)) then
    some (r.takeWhile (fun c => c ≠ bar), (r.dropWhile (fun c => c ≠ bar)).drop cd.length)
  else none

/-- Leftmost match of an `od ([^bar]+) cd` pattern at this position, as the
bold, italic and inline-code regexes match. -/
def matchDelim (od : List Char) (bar : Char) (cd : List Char) (l : List Char) :
    Option (List Char × List Char) :=
  if od.isPrefixOf l then matchDelimTail bar cd (l.drop od.length)
  else none

/-- Global replace of a delimited pattern by its captured run. -/
def stripDelimF (od : List Char) (bar : Char) (cd : List Char) : Nat → List Char → List Char
  | 0, l => l
  | _ + 1, [] => []
  | fuel + 1, c :: rest =>
    match matchDelim od bar cd (c :: rest) with
    | some p => p.1 ++ stripDelimF od bar cd fuel p.2
    | none => c :: stripDelimF od bar cd fuel rest

def stripDelim (od : List Char) (bar : Char) (cd : List Char) (l : List Char) : List Char :=
  stripDelimF od bar cd (l.length + 1) l

/-- Leftmost match of `\[([^\]]+)\]\([^)]+\)` at this position: the link text
and the remainder after the closing parenthesis. -/
def matchLink (l : List Char) : Option (List Char × List Char) :=
  match l with
  | [] => none
  | c :: r =>
    if c = '[' then
      match dropThrough ']' r with
      | some (txt, rest1) =>
        match rest1 with
        | [] => none
        | c1 :: r2 =>
          if c1 = '(' then
            match dropThrough ')' r2 with
            | some (url, after) =>
              if txt ≠ [] && url ≠ [] then some (txt, after) else none
            | none => none
          else none
      | none => none
    else none

/-- Global replace of markdown links by their text. -/
def stripLinksF : Nat → List Char → List Char
  | 0, l => l
  | _ + 1, [] => []
  | fuel + 1, c :: rest =>
    match matchLink (c :: rest) with
    | some p => p.1 ++ stripLinksF fuel p.2
    | none => c :: stripLinksF fuel rest

def stripLinks (l : List Char) : List Char := stripLinksF (l.length + 1) l

/-- Consume a whitespace run; the flag records whether the last consumed
character was a newline, which is what makes the next position a line
start for the `m`-flagged anchors. -/
def afterWs (r : List Char) : List Char × Bool :=
  (r.dropWhile isWsChar, (r.takeWhile isWsChar).getLast? = some '\n')

/-- Line-anchored match of `^#+\s*`. -/
def matchHeader (l : List Char) : Option (List Char × Bool) :=
  match l with
  | [] => none
  | c :: _ => if c = '#' then some (afterWs (l.dropWhile (fun c => c = '#'))) else none

/-- Line-anchored match of `^[-*]\s*`. -/
def matchListItem (l : List Char) : Option (List Char × Bool) :=
  match l with
  | [] => none
  | c :: rest => if c = '-' || c = '*' then some (afterWs rest) else none

/-- Line-anchored match of `^\d+\.\s*`. -/
def matchNumbered (l : List Char) : Option (List Char × Bool) :=
  match l.takeWhile isDigitChar with
  | [] => none
  | _ :: _ =>
    match l.drop (l.takeWhile isDigitChar).length with
    | c :: rest => if c = '.' then some (afterWs rest) else none
    | [] => none

/-- Scanner applying a line-anchored matcher globally, tracking whether the
current position follows a newline (a `^` position under the `m` flag). -/
def lineScanF (m : List Char → Option (List Char × Bool)) : Nat → Bool → List Char → List Char
  | 0, _, l => l
  | _ + 1, _, [] => []
  | fuel + 1, atStart, c :: rest =>
    if atStart then
      match m (c :: rest) with
      | some q => lineScanF m fuel q.2 q.1
      | none => c :: lineScanF m fuel (c = '\n') rest
    else c :: lineScanF m fuel (c = '\n') rest

def lineScan (m : List Char → Option (List Char × Bool)) (l : List Char) : List Char :=
  lineScanF m (l.length + 1) true l

/-- Global replace of `\s+` by a single space. -/
def collapseWsF : Nat → List Char → List Char
  | 0, l => l
  | _ + 1, [] => []
  | fuel + 1, c :: rest =>
    if isWsChar c then ' ' :: collapseWsF fuel (rest.dropWhile isWsChar)
    else c :: collapseWsF fuel rest

def collapseWs (l : List Char) : List Char := collapseWsF (l.length + 1) l

/-- The remainder of a whitespace run after its last newline, when it has
one (where the backtracked `\s*\n` of `\n\s*\n` ends). -/
def lastNlSplit : List Char → Option (List Char)
  | [] => none
  | c :: rest =>
    match lastNlSplit rest with
    | some t => some t
    | none => if c = '\n' then some rest else none

/-- Global replace of `\n\s*\n` by a single space. -/
def collapseNlNlF : Nat → List Char → List Char
  | 0, l => l
  | _ + 1, [] => []
  | fuel + 1, c :: rest =>
    if c = '\n' then
      match lastNlSplit (rest.takeWhile isWsChar) with
      | some tailWs => ' ' :: collapseNlNlF fuel (tailWs ++ rest.drop (rest.takeWhile isWsChar).length)
      | none => c :: collapseNlNlF fuel rest
    else c :: collapseNlNlF fuel rest

def collapseNlNl (l : List Char) : List Char := collapseNlNlF (l.length + 1) l

/-- JavaScript `String.prototype.trim`. -/
def trimChars (l : List Char) : List Char :=
  ((l.dropWhile isWsChar).reverse.dropWhile isWsChar).reverse

/-- The backtick character (the inline-code delimiter). -/
def btick : Char := Char.ofNat 96

/-- `minifyDescriptionText` from `src/minifier.ts`: the chain of global
replaces in source order (HTML tags, markdown bold, italic, inline code,
links, headers, list items, numbered lists, whitespace collapsing), then
trim. -/
def minifyDescriptionText (description : String) : String :=
  let l := description.toList
  let l := stripHtml l
  let l := stripDelim ['*', '*'] '*' ['*', '*'] l
  let l := stripDelim ['*'] '*' ['*'] l
  let l := stripDelim [btick] btick [btick] l
  let l := stripLinks l
  let l := lineScan matchHeader l
  let l := lineScan matchListItem l
  let l := lineScan matchNumbered l
  let l := collapseWs l
  let l := collapseNlNl l
  String.mk (trimChars l)

example : minifyDescriptionText "**Bold** and [a link](http://x)" = "Bold and a link" := by
  decide

/-- `isRequiredDescriptionField` from `src/minifier.ts`: descriptions inside
a `responses` object or a `tags` entry are never deleted. -/
def isRequiredDescriptionField (path : List String) : Bool :=
  (path.contains "responses" && path.getLast? = some "description") ||
  (path.contains "tags" && path.getLast? = some "description")

/-- `isRequiredSummaryField` from `src/minifier.ts`: always false. -/
def isRequiredSummaryField (_path : List String) : Bool :=
  false

/-- `isInSchema` from `src/minifier.ts`. -/
def isInSchema (path : List String) : Bool :=
  path.contains "schemas" || path.contains "properties" ||
  path.any (fun segment => segment = "schema") ||
  (path.contains "components" && path.contains "schemas")

/-- The in-schema test of the `schema-only` description branch in
`processField`. -/
def descInSchemaPath (currentPath : List String) : Bool :=
  currentPath.any (fun segment =>
    segment = "schemas" || segment = "properties" ||
    (segment = "components" && currentPath.contains "schemas"))

/-- The status-code table of `getMinimalResponseDescription`. -/
def minimalDescriptions : List (String × String) :=
  [("200", "Success"), ("201", "Created"), ("204", "No Content"),
   ("400", "Bad Request"), ("401", "Unauthorized"), ("403", "Forbidden"),
   ("404", "Not Found"), ("412", "Precondition Failed"),
   ("429", "Too Many Requests"), ("500", "Internal Server Error"),
   ("503", "Service Unavailable"), ("504", "Gateway Timeout")]

/-- `getMinimalResponseDescription` from `src/minifier.ts` (the table values
are non-empty, so `||` is the same as defaulting the lookup). -/
def getMinimalResponseDescription (statusCode : String) : String :=
  (minimalDescriptions.lookup statusCode).getD "Response"

/-- The removal list of `cleanSchemaProperties`. -/
def schemaPropertiesToRemove : List String :=
  ["format", "pattern", "minLength", "maxLength", "minimum", "maximum",
   "multipleOf", "exclusiveMinimum", "exclusiveMaximum", "minItems",
   "maxItems", "uniqueItems", "minProperties", "maxProperties",
   "additionalProperties", "title", "default", "readOnly", "writeOnly",
   "deprecated", "nullable"]

/-- The balanced-preset removal list of `cleanSchemaProperties`. -/
def balancedRemovalList : List String :=
  ["format", "pattern", "title", "default", "readOnly", "writeOnly",
   "deprecated", "nullable"]

/-- `cleanSchemaProperties` from `src/minifier.ts`, acting on the object
holding `key` (the early returns of the source are the first matching
branch here). -/
def cleanSchemaProperties (obj : JObj) (key : String) (value : Option Json)
    (options : MinificationOptions) : JObj :=
  if options.preset = some "max" then
    if schemaPropertiesToRemove.contains key then jdel obj key
    else if key = "additionalProperties" && value ≠ some (.bool true) then jdel obj key
    else obj
  else if options.preset = some "balanced" then
    if balancedRemovalList.contains key then jdel obj key else obj
  else obj

/-- Copy field `k` of `src` into `dst` when present (the
`if ('k' in x) out.k = x.k` idiom of `cleanInfoSection`). -/
def keepField (src : JObj) (k : String) (dst : JObj) : JObj :=
  match jget src k with
  | some v => jset dst k v
  | none => dst

/-- The contact pruning of `cleanInfoSection` (keep `name`, `url`, `email`). -/
def contactClean (contact : JObj) : JObj :=
  keepField contact "email" (keepField contact "url" (keepField contact "name" []))

/-- The license pruning of `cleanInfoSection` (keep `name`, `url`). -/
def licenseClean (license : JObj) : JObj :=
  keepField license "url" (keepField license "name" [])

def essentialFields : List String := ["title", "version"]

def optionalFields : List String := ["description", "contact", "license", "termsOfService"]

/-- One optional-field step of `cleanInfoSection`. -/
def infoOptionalStep (obj : JObj) (options : MinificationOptions)
    (cleaned : JObj) (field : String) : JObj :=
  match jget obj field with
  | none => cleaned
  | some v =>
    if field = "description" then
      if options.keepDescriptions = "none" then cleaned
      else
        match v with
        | .str s => jset cleaned field (.str (minifyDescriptionText s))
        | _ => jset cleaned field v
    else if field = "contact" || field = "license" then
      match v with
      | .obj cfs =>
        if field = "contact" then jset cleaned field (.obj (contactClean cfs))
        else jset cleaned field (.obj (licenseClean cfs))
      | _ => cleaned
    else jset cleaned field v

/-- `cleanInfoSection` from `src/minifier.ts`: rebuild the info object from
the essential fields, then the surviving optional fields. -/
def cleanInfoSection (obj : JObj) (options : MinificationOptions) : JObj :=
  let cleaned := essentialFields.foldl (fun c f => keepField obj f c) []
  optionalFields.foldl (fun c f => infoOptionalStep obj options c f) cleaned

/-- One entry of `cleanResponses`: guarantee a description, then strip the
media-type examples when examples are not kept. -/
def cleanResponseEntry (options : MinificationOptions) (statusCode : String)
    (response : JObj) : JObj :=
  let cleaned := response
  let cleaned :=
    if !truthyOpt (jget cleaned "description") then
      jset cleaned "description" (.str (getMinimalResponseDescription statusCode))
    else if options.keepDescriptions = "none" then
      jset cleaned "description" (.str (getMinimalResponseDescription statusCode))
    else
      match jget cleaned "description" with
      | some (.str d) => jset cleaned "description" (.str (minifyDescriptionText d))
      | _ => cleaned
  if !options.keepExamples then
    match jget cleaned "content" with
    | some (.obj content) =>
      jset cleaned "content" (.obj (content.map (fun p =>
        if isObject p.2 then (p.1, jdelJ (jdelJ p.2 "examples") "example") else p)))
    | _ => cleaned
  else cleaned

/-- `cleanResponses` from `src/minifier.ts`: every object entry is replaced
by its cleaned copy. -/
def cleanResponses (responses : JObj) (options : MinificationOptions) : JObj :=
  responses.map (fun p =>
    match p.2 with
    | .obj fs => (p.1, Json.obj (cleanResponseEntry options p.1 fs))
    | _ => p)

/-- The HTTP verbs recognized by `removeDeprecatedPaths`. -/
def operationsList : List String :=
  ["get", "post", "put", "patch", "delete", "head", "options", "trace"]

/-- Whether an operation value is an object marked `deprecated: true`. -/
def opDeprecated (v : Option Json) : Bool :=
  match v with
  | some (.obj o) => jget o "deprecated" = some (.bool true)
  | _ => false

/-- The per-path-item decision of `removeDeprecatedPaths`: `none` removes the
whole path, `some` keeps the (possibly pruned) item. -/
def processPathItem (item : Json) : Option Json :=
  match item with
  | .obj fs =>
    if jget fs "deprecated" = some (.bool true) then none
    else
      let pathOperations := operationsList.filter (fun op => hasKey fs op)
      if pathOperations ≠ [] then
        if pathOperations.all (fun op => opDeprecated (jget fs op)) then none
        else
          let fs2 := pathOperations.foldl (fun it op =>
            if opDeprecated (jget it op) then jdel it op else it) fs
          if operationsList.filter (fun op => hasKey fs2 op) = [] then none
          else some (.obj fs2)
      else some (.obj fs)
  | j => some j

/-- The path entries surviving `removeDeprecatedPaths`, in order. -/
def keptPaths (paths : JObj) : JObj :=
  (paths.map (fun p => (p.1, processPathItem p.2))).filterMap
    (fun p => p.2.map (fun v => (p.1, v)))

/-- The number of whole paths `removeDeprecatedPaths` removes. -/
def removedPathsCount (paths : JObj) : Nat :=
  ((paths.map (fun p => (p.1, processPathItem p.2))).filter (fun p => p.2 = none)).length

/-- `removeDeprecatedPaths` from `src/minifier.ts`: prune `spec.paths` and
return the count of whole paths removed.  (When `paths` is absent or not an
object the source returns 0 without touching the document.) -/
def removeDeprecatedPaths (spec : Json) : Json × Nat :=
  match jgetJ spec "paths" with
  | some (.obj paths) => (jsetJ spec "paths" (.obj (keptPaths paths)), removedPathsCount paths)
  | _ => (spec, 0)

/-- The servers rule of `processField`: drop or normalize each server
description. -/
def cleanServer (options : MinificationOptions) (server : Json) : Json :=
  match server with
  | .obj fs =>
    if options.keepDescriptions = "" || options.keepDescriptions = "none" then
      .obj (jdel fs "description")
    else
      match jget fs "description" with
      | some (.str d) => .obj (jset fs "description" (.str (minifyDescriptionText d)))
      | _ => .obj fs
  | _ => server

/-- The parameters rule of `processField`: strip `examples`/`example` from
each parameter object when examples are not kept. -/
def cleanParam (options : MinificationOptions) (param : Json) : Json :=
  match param with
  | .obj fs =>
    if !options.keepExamples then .obj (jdel (jdel fs "examples") "example") else .obj fs
  | _ => param

/-- The global-tags rule of `processField`: a tag object with a `name` is
replaced by an object holding only that name. -/
def cleanTag (tag : Json) : Json :=
  match tag with
  | .obj fs =>
    match jget fs "name" with
    | some v => .obj [("name", v)]
    | none => tag
  | _ => tag

def protectedFields : List String := ["openapi", "info", "paths"]

def isStrOpt : Option Json → Bool
  | some (.str _) => true
  | _ => false

def isObjOpt : Option Json → Bool
  | some (.obj _) => true
  | _ => false

def isArrJ : Json → Bool
  | .arr _ => true
  | _ => false

/-- The rule part of `processField` from `src/minifier.ts` (everything before
the final recursion into the value), acting on the current state of the
object that holds `key`. -/
def processFieldRules (options : MinificationOptions) (obj0 : JObj)
    (key : String) (currentPath : List String) : JObj :=
  let value := jget obj0 key
  if key = "examples" && !options.keepExamples then jdel obj0 key
  else if key = "description" && isStrOpt value && options.keepDescriptions = "none" &&
      !isRequiredDescriptionField currentPath then
    jdel obj0 key
  else if key = "description" && isStrOpt value && options.keepDescriptions = "schema-only" &&
      !isRequiredDescriptionField currentPath && !descInSchemaPath currentPath then
    jdel obj0 key
  else
    let obj1 :=
      match value with
      | some (.str s) =>
        if key = "description" then jset obj0 key (.str (minifyDescriptionText s)) else obj0
      | _ => obj0
    if key = "summary" && !options.keepSummaries && !isRequiredSummaryField currentPath then
      jdel obj1 key
    else
      let obj2 :=
        if key = "tags" && !options.keepTags then
          match value with
          | some (.arr tags) =>
            if currentPath.length = 1 then jset obj1 key (.arr (tags.map cleanTag)) else obj1
          | _ => obj1
        else obj1
      let obj3 :=
        if currentPath.head? = some "info" && isObjOpt value then
          cleanInfoSection obj2 options
        else obj2
      let obj4 :=
        if key = "servers" then
          match value with
          | some (.arr servers) =>
            jset obj3 key (.arr (servers.map (cleanServer options)))
          | _ => obj3
        else obj3
      let obj5 :=
        if key = "responses" then
          match jget obj4 key with
          | some (.obj resp) => jset obj4 key (.obj (cleanResponses resp options))
          | _ => obj4
        else obj4
      let obj6 :=
        if key = "parameters" then
          match value with
          | some (.arr params) =>
            jset obj5 key (.arr (params.map (cleanParam options)))
          | _ => obj5
        else obj5
      if isInSchema currentPath then cleanSchemaProperties obj6 key value options
      else obj6

mutual
/-- `minifyObject` from `src/minifier.ts`.  The working object is threaded
through the per-key processing in snapshot key order; at the root the three
protected fields are recursed into but never themselves processed.  Every
recursive call consumes one unit of fuel so the whole traversal is
structural; the orchestrator passes fuel that cannot run out. -/
def minifyObject (options : MinificationOptions) : Nat → Json → List String → Json
  | 0, j, _ => j
  | fuel + 1, j, path =>
    match j with
    | .obj fs =>
      let keys := fs.map Prod.fst
      if path = [] && keys.any (fun k => protectedFields.contains k) then
        .obj (rootLoop options fuel keys fs)
      else
        .obj (keysLoop options fuel path keys fs)
    | _ => j

/-- The protected-root iteration of `minifyObject`. -/
def rootLoop (options : MinificationOptions) : Nat → List String → JObj → JObj
  | 0, _, st => st
  | _ + 1, [], st => st
  | fuel + 1, k :: ks, st =>
    let st :=
      if protectedFields.contains k then
        match jget st k with
        | some v =>
          if isObject v || isArrJ v then jset st k (minifyObject options fuel v [k]) else st
        | none => st
      else processField options fuel st k [k]
    rootLoop options fuel ks st

/-- The general per-key iteration of `minifyObject`. -/
def keysLoop (options : MinificationOptions) : Nat → List String → List String → JObj → JObj
  | 0, _, _, st => st
  | _ + 1, _, [], st => st
  | fuel + 1, path, k :: ks, st =>
    keysLoop options fuel path ks (processField options fuel st k (path ++ [k]))

/-- `processField` from `src/minifier.ts`: the rules, then the recursion
into the value as it stands in the object afterwards.  Known divergence:
the source captures `const value = obj[key]` before the rules run and
recurses into that captured reference, so where a rule rebinds the key to a
fresh structure — the `servers` and `parameters` rules replace the binding
with arrays of shallow copies — the source's recursive deletions land on
the orphaned originals (their nested shared substructure aside), while this
model recurses into the post-rule value; concrete documents used in
theorems below avoid `servers`/`parameters` entries whose members would be
edited by the recursion. -/
def processField (options : MinificationOptions) : Nat → JObj → String → List String → JObj
  | 0, st, _, _ => st
  | fuel + 1, obj0, key, currentPath =>
    let obj7 := processFieldRules options obj0 key currentPath
    match jget obj7 key with
    | some (.obj sub) => jset obj7 key (minifyObject options fuel (.obj sub) currentPath)
    | some (.arr items) =>
      jset obj7 key (.arr (mapIdxMinify options fuel currentPath 0 items))
    | _ => obj7

/-- Element-wise recursion into an array value, with stringified indices
appended to the path, as `processField` recurses. -/
def mapIdxMinify (options : MinificationOptions) : Nat → List String → Nat → List Json → List Json
  | 0, _, _, xs => xs
  | _ + 1, _, _, [] => []
  | fuel + 1, currentPath, i, x :: xs =>
    minifyObject options fuel x (currentPath ++ [toString i]) ::
      mapIdxMinify options fuel currentPath (i + 1) xs
end

/-- `/^\d{3}$/` on a response key. -/
def isThreeDigits (s : String) : Bool :=
  s.length = 3 && s.toList.all isDigitChar

mutual
/-- `removeVariableContent` inside `createResponseKey`: strip `examples` and
`example` everywhere. -/
def stripVariantResp : Json → Json
  | .arr xs => .arr (stripVariantRespArr xs)
  | .obj fs => .obj (stripVariantRespObj fs)
  | j => j
def stripVariantRespArr : List Json → List Json
  | [] => []
  | x :: xs => stripVariantResp x :: stripVariantRespArr xs
def stripVariantRespObj : JObj → JObj
  | [] => []
  | (k, v) :: fs =>
    if k = "examples" || k = "example" then stripVariantRespObj fs
    else (k, stripVariantResp v) :: stripVariantRespObj fs
end

/-- `createResponseKey` from `src/minifier.ts`: canonical JSON of the
response with the variable fields stripped. -/
def createResponseKey (response : Json) : String :=
  stringify (stripVariantResp (deepClone response))

mutual
/-- `removeVariableContent` inside `createSchemaKey`: strip `examples`,
`example`, `default`, `description` and `title` everywhere. -/
def stripVariantSchema : Json → Json
  | .arr xs => .arr (stripVariantSchemaArr xs)
  | .obj fs => .obj (stripVariantSchemaObj fs)
  | j => j
def stripVariantSchemaArr : List Json → List Json
  | [] => []
  | x :: xs => stripVariantSchema x :: stripVariantSchemaArr xs
def stripVariantSchemaObj : JObj → JObj
  | [] => []
  | (k, v) :: fs =>
    if k = "examples" || k = "example" || k = "default" || k = "description" || k = "title" then
      stripVariantSchemaObj fs
    else (k, stripVariantSchema v) :: stripVariantSchemaObj fs
end

/-- `createSchemaKey` from `src/minifier.ts`. -/
def createSchemaKey (schema : Json) : String :=
  stringify (stripVariantSchema (deepClone schema))

/-- The anchored, case-insensitive status-phrase alternation of
`generateResponseRefName`, in source order. -/
def statusPhrases : List String :=
  ["Unauthorized", "Forbidden", "Not Found", "Bad Request", "Too Many Requests",
   "Internal Server Error", "Success", "Created", "No Content"]

def toLowerStr (s : String) : String :=
  String.mk (s.toList.map Char.toLower)

def fallbackResponseNames : List String :=
  ["CommonError", "ApiError", "ValidationError", "AuthError", "ServerError",
   "ClientError", "NotFoundError", "ForbiddenError", "RateLimitError"]

def fallbackRespName (counter : Nat) : String :=
  ((fallbackResponseNames.get? (counter % 9)).getD "") ++ toString (counter / 9 + 1)

/-- `generateResponseRefName` from `src/minifier.ts`: the first phrase that
prefixes the description case-insensitively gives the base name (spaces
removed, the matched text's own case kept); otherwise the fallback pool. -/
def generateResponseRefName (response : Json) (counter : Nat) : String :=
  match jgetJ response "description" with
  | some (.str d) =>
    match statusPhrases.find? (fun p => (toLowerStr p).toList.isPrefixOf (toLowerStr d).toList) with
    | some p =>
      let matched := String.mk ((d.toList.take p.length).filter (fun c => !isWsChar c))
      if counter = 0 then matched else matched ++ toString (counter + 1)
    | none => fallbackRespName counter
  | _ => fallbackRespName counter

def fallbackSchemaNames : List String :=
  ["CommonSchema", "SharedSchema", "ReusableSchema", "ExtractedSchema",
   "CommonType", "SharedType", "ReusableType", "ExtractedType"]

def fallbackSchemaName (counter : Nat) : String :=
  ((fallbackSchemaNames.get? (counter % 8)).getD "") ++ toString (counter / 8 + 1)

/-- `generateSchemaRefName` from `src/minifier.ts`. -/
def generateSchemaRefName (schema : Json) (counter : Nat) : String :=
  let suffixed := fun (base : String) =>
    if counter = 0 then base else base ++ toString (counter + 1)
  match jgetJ schema "type" with
  | some t =>
    if truthy t then
      if t = .str "object" && truthyOpt (jgetJ schema "properties") then
        match jgetJ schema "properties" with
        | some (.obj props) =>
          let names := props.map Prod.fst
          if names.contains "message" then suffixed "ErrorMessage"
          else if names.contains "id" && names.contains "name" then suffixed "IdNameResource"
          else if names.contains "status" then suffixed "StatusObject"
          else suffixed "CommonObject"
        | _ => suffixed "CommonObject"
      else if t = .str "array" then suffixed "CommonArray"
      else if t = .str "string" && truthyOpt (jgetJ schema "enum") then suffixed "CommonEnum"
      else fallbackSchemaName counter
    else fallbackSchemaName counter
  | none => fallbackSchemaName counter

/-- The first rejection test of `isInlineSchemaWorthExtracting`: a schema
with a truthy string `type` and none of the structuring keywords. -/
def isBarePrimitiveSchema (schema : Json) : Bool :=
  (match jgetJ schema "type" with
   | some (.str t) => t ≠ ""
   | _ => false) &&
  !truthyOpt (jgetJ schema "properties") && !truthyOpt (jgetJ schema "enum") &&
  !truthyOpt (jgetJ schema "items") && !truthyOpt (jgetJ schema "oneOf") &&
  !truthyOpt (jgetJ schema "anyOf") && !truthyOpt (jgetJ schema "allOf")

/-- `isInlineSchemaWorthExtracting` from `src/minifier.ts`: reject
non-objects, bare typed primitives, and schemas whose full `JSON.stringify`
serialization is under 50 characters. -/
def isInlineSchemaWorthExtracting (schema : Json) : Bool :=
  if !isObject schema then false
  else if isBarePrimitiveSchema schema then false
  else if (stringify schema).length < 50 then false
  else true

/-- Occurrence grouping for the extraction passes: each canonical key maps
to its first-seen representative (a clone of the first occurrence) and its
occurrence count, in first-seen order. -/
def addOccurrence (acc : List (String × Json × Nat)) (key : String) (v : Json) :
    List (String × Json × Nat) :=
  match acc with
  | [] => [(key, deepClone v, 1)]
  | (k, r, n) :: rest =>
    if k = key then (k, r, n + 1) :: rest else (k, r, n) :: addOccurrence rest key v

mutual
/-- `collectResponses` inside `extractCommonResponses`: an object value under
a three-digit key whose parent key is `responses` is an occurrence (and is
not recursed into); everything else is traversed. -/
def collectResponses (j : Json) (currentPath : List String)
    (acc : List (String × Json × Nat)) : List (String × Json × Nat) :=
  match j with
  | .arr xs => collectResponsesArr xs currentPath 0 acc
  | .obj fs => collectResponsesObj fs currentPath acc
  | _ => acc
def collectResponsesArr (xs : List Json) (currentPath : List String) (i : Nat)
    (acc : List (String × Json × Nat)) : List (String × Json × Nat) :=
  match xs with
  | [] => acc
  | x :: rest =>
    collectResponsesArr rest currentPath (i + 1)
      (collectResponses x (currentPath ++ [toString i]) acc)
def collectResponsesObj (fs : JObj) (currentPath : List String)
    (acc : List (String × Json × Nat)) : List (String × Json × Nat) :=
  match fs with
  | [] => acc
  | (k, v) :: rest =>
    let acc :=
      if currentPath.getLast? = some "responses" && isThreeDigits k && isObject v then
        addOccurrence acc (createResponseKey v) v
      else collectResponses v (currentPath ++ [k]) acc
    collectResponsesObj rest currentPath acc
end

mutual
/-- `replaceWithRef` inside `extractCommonResponses`: rewrite every
occurrence position whose canonical key is `ckey` to a `$ref` object,
counting the rewrites.  A position that matches the occurrence condition but
carries a different canonical key is left alone and not recursed into, as in
the source. -/
def replaceResp (ckey refName : String) (j : Json) (currentPath : List String) : Json × Nat :=
  match j with
  | .arr xs =>
    let r := replaceRespArr ckey refName xs currentPath 0
    (.arr r.1, r.2)
  | .obj fs =>
    let r := replaceRespObj ckey refName fs currentPath
    (.obj r.1, r.2)
  | _ => (j, 0)
def replaceRespArr (ckey refName : String) (xs : List Json) (currentPath : List String)
    (i : Nat) : List Json × Nat :=
  match xs with
  | [] => ([], 0)
  | x :: rest =>
    let r1 := replaceResp ckey refName x (currentPath ++ [toString i])
    let r2 := replaceRespArr ckey refName rest currentPath (i + 1)
    (r1.1 :: r2.1, r1.2 + r2.2)
def replaceRespObj (ckey refName : String) (fs : JObj) (currentPath : List String) :
    JObj × Nat :=
  match fs with
  | [] => ([], 0)
  | (k, v) :: rest =>
    let r1 :=
      if currentPath.getLast? = some "responses" && isThreeDigits k && isObject v then
        if createResponseKey v = ckey then
          ((Json.obj [("$ref", .str ("#/components/responses/" ++ refName))]), 1)
        else (v, 0)
      else replaceResp ckey refName v (currentPath ++ [k])
    let r2 := replaceRespObj ckey refName rest currentPath
    ((k, r1.1) :: r2.1, r1.2 + r2.2)
end

/-- Assign reference names to the groups that reach the 3-occurrence
threshold, advancing the counter only on qualifying groups. -/
def assignRespRefNames (acc : List (String × Json × Nat)) (counter : Nat) :
    List (String × Json × String) :=
  match acc with
  | [] => []
  | (ckey, rep, n) :: rest =>
    if n ≥ 3 then
      (ckey, rep, generateResponseRefName rep counter) :: assignRespRefNames rest (counter + 1)
    else assignRespRefNames rest counter

/-- `if (!spec.components.<field>) spec.components.<field> = {}`. -/
def ensureComponentsStep (spec : Json) (field : String) : Json :=
  match jgetJ spec "components" with
  | some comps =>
    if !truthyOpt (jgetJ comps field) then
      jsetJ spec "components" (jsetJ comps field (.obj []))
    else spec
  | none => spec

/-- `if (!spec.components) spec.components = {}` followed by the same for
the named field. -/
def ensureComponentsField (spec : Json) (field : String) : Json :=
  ensureComponentsStep
    (if !truthyOpt (jgetJ spec "components") then jsetJ spec "components" (.obj []) else spec)
    field

/-- `spec.components.<field>[name] = v`. -/
def setComponentsEntry (spec : Json) (field name : String) (v : Json) : Json :=
  match jgetJ spec "components" with
  | some comps =>
    match jgetJ comps field with
    | some (.obj entries) =>
      jsetJ spec "components" (jsetJ comps field (.obj (jset entries name v)))
    | _ => spec
  | none => spec

/-- `extractCommonResponses` from `src/minifier.ts`: collect occurrences,
keep the groups with 3 or more, insert one representative per group into
`components.responses` and rewrite every matching occurrence to a `$ref`,
returning the total number of rewrites. -/
def extractCommonResponses (spec : Json) : Json × Nat :=
  match jgetJ spec "paths" with
  | some (.obj _) =>
    let groups := collectResponses spec [] []
    let common := assignRespRefNames groups 0
    if common = [] then (spec, 0)
    else
      let spec := ensureComponentsField spec "responses"
      common.foldl (fun st g =>
        let st1 := setComponentsEntry st.1 "responses" g.2.2 g.2.1
        let r := replaceResp g.1 g.2.2 st1 []
        (r.1, st.2 + r.2)) (spec, 0)
  | _ => (spec, 0)

/-- `currentPath[0] === 'components' && currentPath[1] === 'schemas'`. -/
def underComponentsSchemas (p : List String) : Bool :=
  match p with
  | "components" :: "schemas" :: _ => true
  | _ => false

/-- `'$ref' in value` for object values. -/
def hasRefJ (v : Json) : Bool :=
  match v with
  | .obj fs => hasKey fs "$ref"
  | _ => false

mutual
/-- `collectSchemas` inside `extractCommonSchemas`: an eligible occurrence is
an object value of a `schema` key, not itself a `$ref`, passing the
worth-extracting filter; the keys of any object sitting under
`components.schemas` are skipped entirely. -/
def collectSchemas (j : Json) (currentPath : List String)
    (acc : List (String × Json × Nat)) : List (String × Json × Nat) :=
  match j with
  | .arr xs => collectSchemasArr xs currentPath 0 acc
  | .obj fs => collectSchemasObj fs currentPath acc
  | _ => acc
def collectSchemasArr (xs : List Json) (currentPath : List String) (i : Nat)
    (acc : List (String × Json × Nat)) : List (String × Json × Nat) :=
  match xs with
  | [] => acc
  | x :: rest =>
    collectSchemasArr rest currentPath (i + 1)
      (collectSchemas x (currentPath ++ [toString i]) acc)
def collectSchemasObj (fs : JObj) (currentPath : List String)
    (acc : List (String × Json × Nat)) : List (String × Json × Nat) :=
  match fs with
  | [] => acc
  | (k, v) :: rest =>
    let acc :=
      if underComponentsSchemas currentPath then acc
      else if k = "schema" && isObject v && !hasRefJ v && isInlineSchemaWorthExtracting v then
        addOccurrence acc (createSchemaKey v) v
      else collectSchemas v (currentPath ++ [k]) acc
    collectSchemasObj rest currentPath acc
end

mutual
/-- `replaceWithRef` inside `extractCommonSchemas`: note that the
worth-extracting filter is not re-checked here, and a `schema`-keyed object
that is not a `$ref` but carries a different canonical key is not recursed
into, as in the source. -/
def replaceSchema (ckey refName : String) (j : Json) (currentPath : List String) : Json × Nat :=
  match j with
  | .arr xs =>
    let r := replaceSchemaArr ckey refName xs currentPath 0
    (.arr r.1, r.2)
  | .obj fs =>
    let r := replaceSchemaObj ckey refName fs currentPath
    (.obj r.1, r.2)
  | _ => (j, 0)
def replaceSchemaArr (ckey refName : String) (xs : List Json) (currentPath : List String)
    (i : Nat) : List Json × Nat :=
  match xs with
  | [] => ([], 0)
  | x :: rest =>
    let r1 := replaceSchema ckey refName x (currentPath ++ [toString i])
    let r2 := replaceSchemaArr ckey refName rest currentPath (i + 1)
    (r1.1 :: r2.1, r1.2 + r2.2)
def replaceSchemaObj (ckey refName : String) (fs : JObj) (currentPath : List String) :
    JObj × Nat :=
  match fs with
  | [] => ([], 0)
  | (k, v) :: rest =>
    let r1 :=
      if underComponentsSchemas currentPath then (v, 0)
      else if k = "schema" && isObject v && !hasRefJ v then
        if createSchemaKey v = ckey then
          ((Json.obj [("$ref", .str ("#/components/schemas/" ++ refName))]), 1)
        else (v, 0)
      else replaceSchema ckey refName v (currentPath ++ [k])
    let r2 := replaceSchemaObj ckey refName rest currentPath
    ((k, r1.1) :: r2.1, r1.2 + r2.2)
end

def assignSchemaRefNames (acc : List (String × Json × Nat)) (counter : Nat) :
    List (String × Json × String) :=
  match acc with
  | [] => []
  | (ckey, rep, n) :: rest =>
    if n ≥ 3 then
      (ckey, rep, generateSchemaRefName rep counter) :: assignSchemaRefNames rest (counter + 1)
    else assignSchemaRefNames rest counter

/-- `extractCommonSchemas` from `src/minifier.ts`. -/
def extractCommonSchemas (spec : Json) : Json × Nat :=
  match jgetJ spec "paths" with
  | some (.obj _) =>
    let groups := collectSchemas spec [] []
    let common := assignSchemaRefNames groups 0
    if common = [] then (spec, 0)
    else
      let spec := ensureComponentsField spec "schemas"
      common.foldl (fun st g =>
        let st1 := setComponentsEntry st.1 "schemas" g.2.2 g.2.1
        let r := replaceSchema g.1 g.2.2 st1 []
        (r.1, st.2 + r.2)) (spec, 0)
  | _ => (spec, 0)

/-- A JavaScript line terminator, which `.` in a regex without the `s` flag
does not match. -/
def isLineTerm (c : Char) : Bool :=
  c = Char.ofNat 10 || c = Char.ofNat 13 || c = Char.ofNat 0x2028 || c = Char.ofNat 0x2029

/-- The `$ref` pattern `#\/components\/schemas\/(.+)$`: at the leftmost
position where the literal prefix is followed by at least one character and
everything up to the end of the string is free of line terminators (`.`
cannot match them and `$` without the `m` flag anchors at the end of input),
the capture is that remainder; a failing position falls through to the scan
of the next position, as the regex engine does. -/
def schemaRefPatChars : List Char := "#/components/schemas/".toList

def findSchemaRefNameAux : List Char → Option String
  | [] => none
  | c :: rest =>
    if schemaRefPatChars.isPrefixOf (c :: rest) &&
        !((c :: rest).drop schemaRefPatChars.length).isEmpty &&
        ((c :: rest).drop schemaRefPatChars.length).all (fun ch => !isLineTerm ch) then
      some (String.mk ((c :: rest).drop schemaRefPatChars.length))
    else findSchemaRefNameAux rest

def findSchemaRefName (s : String) : Option String :=
  findSchemaRefNameAux s.toList

/-- `findReferences` / `findRefsInSchema` from `removeUnusedComponents`:
collect the schema names of every string-valued `$ref`, in scan order
without duplicates.  The `components`-skip of the source is a condition on
the first path segment only; the callers below apply this scanner only to
subtrees (`paths`, `webhooks`, `callbacks`, or one schema body) where that
segment never is `components`, so the path is not tracked here. -/
def addName (acc : List String) (n : String) : List String :=
  if acc.contains n then acc else acc ++ [n]

mutual
def findReferences (j : Json) (acc : List String) : List String :=
  match j with
  | .arr xs => findReferencesArr xs acc
  | .obj fs => findReferencesObj fs acc
  | _ => acc
def findReferencesArr (xs : List Json) (acc : List String) : List String :=
  match xs with
  | [] => acc
  | x :: rest => findReferencesArr rest (findReferences x acc)
def findReferencesObj (fs : JObj) (acc : List String) : List String :=
  match fs with
  | [] => acc
  | (k, v) :: rest =>
    let acc :=
      if k = "$ref" then
        match v with
        | .str s =>
          match findSchemaRefName s with
          | some name => addName acc name
          | none => acc
        | _ => findReferences v acc
      else findReferences v acc
    findReferencesObj rest acc
end

/-- The direct reference scan of `removeUnusedComponents`: `paths` always,
`webhooks` and `callbacks` when truthy. -/
def directRefs (spec : Json) : List String :=
  let acc :=
    match jgetJ spec "paths" with
    | some p => findReferences p []
    | none => []
  let acc :=
    match jgetJ spec "webhooks" with
    | some w => if truthy w then findReferences w acc else acc
    | none => acc
  match jgetJ spec "callbacks" with
  | some c => if truthy c then findReferences c acc else acc
  | none => acc

/-- The number of schema references inside one table body. -/
def refsLen (b : Json) : Nat :=
  (findReferences b []).length

/-- Fuel that always suffices for the reference closure: every worklist item
is consumed once and each table entry contributes its references at most
once. -/
def closureFuel (table : JObj) (init : List String) : Nat :=
  init.length + (table.map (fun p => refsLen p.2)).sum + 1

/-- The transitive reference closure of `removeUnusedComponents`
(`findTransitiveReferences`): a worklist pass over the schema table with a
visited list.  The computed list has the same members as the source's
insertion-ordered set; only membership is used below. -/
def closeRefs (table : JObj) : Nat → List String → List String → List String
  | 0, _, acc => acc
  | _ + 1, [], acc => acc
  | fuel + 1, n :: rest, acc =>
    if n ∈ acc then closeRefs table fuel rest acc
    else
      match jget table n with
      | some body => closeRefs table fuel (findReferences body [] ++ rest) (acc ++ [n])
      | none => closeRefs table fuel rest (acc ++ [n])

/-- The full reachable-name computation of `removeUnusedComponents`. -/
def referencedSchemas (spec : Json) (table : JObj) : List String :=
  closeRefs table (closureFuel table (directRefs spec)) (directRefs spec) []

/-- The rebuilt schema table of `removeUnusedComponents`: the referenced
names whose table entry passes the source's truthiness test
(`if (spec.components.schemas[name])`), inserted in reachability order; a
referenced entry with a falsy body (`false`, `null`, `""`, `0`) is dropped
like an absent one. -/
def usedSchemas (spec : Json) (table : JObj) : JObj :=
  (referencedSchemas spec table).foldl (fun acc n =>
    match jget table n with
    | some v => if truthy v then jset acc n v else acc
    | none => acc) []

/-- The rebuilt `components` fields: the pruned table replaces `schemas`,
and the `schemas` key is deleted when the pruned table is empty. -/
def prunedComponents (compsFs : JObj) (used : JObj) : JObj :=
  if used = [] then jdel (jset compsFs "schemas" (.obj used)) "schemas"
  else jset compsFs "schemas" (.obj used)

/-- Re-attach the rebuilt `components` fields, deleting the `components`
key when nothing remains. -/
def rebuildComponents (spec : Json) (compsFs : JObj) (used : JObj) : Json :=
  if prunedComponents compsFs used = [] then jdelJ spec "components"
  else jsetJ spec "components" (.obj (prunedComponents compsFs used))

/-- `removeUnusedComponents` from `src/minifier.ts`: keep exactly the
referenced schemas that exist, then delete the `schemas` key when it ends up
empty and the `components` key when it ends up empty.  (A truthy non-object
`components` or `components.schemas` cannot arise in a parsed document and
is left untouched.) -/
def removeUnusedComponents (spec : Json) : Json :=
  match jgetJ spec "components" with
  | some (.obj compsFs) =>
    match jget compsFs "schemas" with
    | some (.obj table) => rebuildComponents spec compsFs (usedSchemas spec table)
    | _ => spec
  | _ => spec

/-- One restoration step of the essential-structure guard: a falsy root
field is replaced by the original parsed document's value. -/
def restoreField (originalSpec : Json) (s : Json) (f : String) : Json :=
  if !truthyOpt (jgetJ s f) then
    match jgetJ originalSpec f with
    | some v => jsetJ s f v
    | none => s
  else s

/-- The essential-structure guard at the end of `minifyOpenAPI`. -/
def ensureEssentials (spec : Json) (originalSpec : Json) : Json :=
  restoreField originalSpec
    (restoreField originalSpec (restoreField originalSpec spec "openapi") "info") "paths"

/-- Fuel that always suffices for the `minifyObject` traversal of a
document: the per-key and per-level consumption along any path is bounded by
the node count plus three per level. -/
def minifyFuel (j : Json) : Nat :=
  4 * jsize j + 16

/-- The document-level pipeline of `minifyOpenAPI` from `src/minifier.ts`:
deep-clone, deprecated-path removal, the two extraction passes, the
field-reduction traversal, the conditional unused-component pruning, and the
essential-field restoration.  (Parsing, serialization and the statistics
record sit outside this document transformation.) -/
def minifyPasses (options : MinificationOptions) (originalSpec : Json) : Json :=
  let spec := deepClone originalSpec
  let depr := if options.removeDeprecated then removeDeprecatedPaths spec else (spec, 0)
  let spec := depr.1
  let deprecatedCount := depr.2
  let spec := if options.extractCommonResponses then (extractCommonResponses spec).1 else spec
  let spec := if options.extractCommonSchemas then (extractCommonSchemas spec).1 else spec
  let spec := minifyObject options (minifyFuel spec) spec []
  if options.preset = some "max" || options.preset = some "balanced" || deprecatedCount > 0 then
    removeUnusedComponents spec
  else spec

def minifySpec (options : MinificationOptions) (originalSpec : Json) : Json :=
  ensureEssentials (minifyPasses options originalSpec) originalSpec

def wrapParseError (e : String) : String :=
  "Failed to parse OpenAPI specification: " ++ e

def wrapSerializeError (e : String) : String :=
  "Failed to serialize OpenAPI specification: " ++ e

/-- JavaScript `typeof x === 'object'` on a parsed JSON value (`null`
included; arrays included). -/
def isObjLike : Json → Bool
  | .obj _ => true
  | .arr _ => true
  | .null => true
  | _ => false

/-- `parseOpenAPI` from `src/parser.ts`.  The external `JSON.parse` /
`yaml.load` outcome is the argument (`Except.error` for text that does not
parse); the structural checks and the catch-all wrapping are the source's.
Note the three field checks test JavaScript truthiness, not mere
presence. -/
def parseOpenAPI (raw : Except String Json) : Except String Json :=
  match raw with
  | .error e => .error (wrapParseError e)
  | .ok spec =>
    if !truthy spec || !isObjLike spec then
      .error (wrapParseError "Invalid OpenAPI specification: not an object")
    else if !truthyOpt (jgetJ spec "openapi") then
      .error (wrapParseError "Missing \"openapi\" field")
    else if !truthyOpt (jgetJ spec "info") then
      .error (wrapParseError "Missing \"info\" field")
    else if !truthyOpt (jgetJ spec "paths") then
      .error (wrapParseError "Missing \"paths\" field")
    else .ok spec

/-- `serializeOpenAPI` from `src/parser.ts`, at the error-propagation level:
the external dump outcome (compact `JSON.stringify` for the JSON format,
which in this embedding is total) is wrapped with the serialize-stage prefix
on failure. -/
def serializeOpenAPI (raw : Except String String) : Except String String :=
  match raw with
  | .error e => .error (wrapSerializeError e)
  | .ok s => .ok s

/-! ### Lemmas about the object operations -/

theorem jget_jset_self (fs : JObj) (k : String) (v : Json) :
    jget (jset fs k v) k = some v := by
  induction fs with
  | nil => simp [jset, jget]
  | cons p rest ih =>
    obtain ⟨k2, v2⟩ := p
    by_cases h : k2 = k
    · simp [jset, jget, h]
    · simp [jset, jget, h, ih]

theorem jget_jset_ne (fs : JObj) (k k2 : String) (v : Json) (h : k2 ≠ k) :
    jget (jset fs k v) k2 = jget fs k2 := by
  have hne : k ≠ k2 := Ne.symm h
  induction fs with
  | nil => simp [jset, jget, hne]
  | cons p rest ih =>
    obtain ⟨k3, v3⟩ := p
    by_cases h3 : k3 = k
    · subst h3
      simp [jset, jget, hne]
    · by_cases h4 : k3 = k2
      · simp [jset, jget, h3, h4, h]
      · simp [jset, jget, h3, h4, ih]

theorem jget_jdel_self (fs : JObj) (k : String) : jget (jdel fs k) k = none := by
  induction fs with
  | nil => simp [jdel, jget]
  | cons p rest ih =>
    obtain ⟨k2, v2⟩ := p
    by_cases h : k2 = k
    · subst h
      rw [show jdel ((k2, v2) :: rest) k2 = jdel rest k2 by simp [jdel, List.filter_cons]]
      exact ih
    · rw [show jdel ((k2, v2) :: rest) k = (k2, v2) :: jdel rest k by
        simp [jdel, List.filter_cons, h]]
      simp [jget, h, ih]

theorem jdel_cons_self (k : String) (v : Json) (rest : JObj) :
    jdel ((k, v) :: rest) k = jdel rest k := by
  simp [jdel, List.filter_cons]

theorem jdel_cons_ne (k k3 : String) (v : Json) (rest : JObj) (h : k3 ≠ k) :
    jdel ((k3, v) :: rest) k = (k3, v) :: jdel rest k := by
  simp [jdel, List.filter_cons, h]

theorem jget_jdel_ne (fs : JObj) (k k2 : String) (h : k2 ≠ k) :
    jget (jdel fs k) k2 = jget fs k2 := by
  have hne : k ≠ k2 := Ne.symm h
  induction fs with
  | nil => simp [jdel, jget]
  | cons p rest ih =>
    obtain ⟨k3, v3⟩ := p
    by_cases h3 : k3 = k
    · subst h3
      rw [jdel_cons_self, ih]
      simp [jget, hne]
    · rw [jdel_cons_ne _ _ _ _ h3]
      by_cases h4 : k3 = k2
      · simp [jget, h4]
      · simp [jget, h4, ih]

theorem jgetJ_jsetJ_self (j : Json) (k : String) (v : Json) (h : isObject j = true) :
    jgetJ (jsetJ j k v) k = some v := by
  cases j <;> simp [isObject] at h ⊢
  exact jget_jset_self _ _ _

theorem jgetJ_jsetJ_ne (j : Json) (k k2 : String) (v : Json) (h : k2 ≠ k) :
    jgetJ (jsetJ j k v) k2 = jgetJ j k2 := by
  cases j <;> simp [jsetJ, jgetJ]
  exact jget_jset_ne _ _ _ _ h

/-! ### Object-shape preservation through the passes -/

theorem isObject_jsetJ (j : Json) (k : String) (v : Json) :
    isObject (jsetJ j k v) = isObject j := by
  cases j <;> simp [jsetJ, isObject]

theorem isObject_jdelJ (j : Json) (k : String) :
    isObject (jdelJ j k) = isObject j := by
  cases j <;> simp [jdelJ, isObject]

theorem isObject_deepClone (j : Json) : isObject (deepClone j) = isObject j := by
  cases j <;> simp [deepClone, isObject]

theorem isObject_removeDeprecatedPaths (spec : Json) :
    isObject (removeDeprecatedPaths spec).1 = isObject spec := by
  unfold removeDeprecatedPaths
  match h : jgetJ spec "paths" with
  | some (.obj paths) => simp [isObject_jsetJ]
  | some (.str _) | some (.num _) | some (.bool _) | some .null | some (.arr _) => simp
  | none => simp

theorem isObject_ensureComponentsStep (spec : Json) (f : String) :
    isObject (ensureComponentsStep spec f) = isObject spec := by
  unfold ensureComponentsStep
  split
  · split
    · rw [isObject_jsetJ]
    · rfl
  · rfl

theorem isObject_ensureComponentsField (spec : Json) (f : String) :
    isObject (ensureComponentsField spec f) = isObject spec := by
  unfold ensureComponentsField
  rw [isObject_ensureComponentsStep]
  split
  · rw [isObject_jsetJ]
  · rfl

theorem isObject_setComponentsEntry (spec : Json) (f n : String) (v : Json) :
    isObject (setComponentsEntry spec f n v) = isObject spec := by
  unfold setComponentsEntry
  split
  · split <;> simp [isObject_jsetJ]
  · rfl

theorem isObject_replaceResp (ckey refName : String) (j : Json) (p : List String) :
    isObject (replaceResp ckey refName j p).1 = isObject j := by
  cases j <;> simp [replaceResp, isObject]

theorem isObject_replaceSchema (ckey refName : String) (j : Json) (p : List String) :
    isObject (replaceSchema ckey refName j p).1 = isObject j := by
  cases j <;> simp [replaceSchema, isObject]

theorem foldl_preserve {α β : Type} (P : α → Prop) (f : α → β → α) (l : List β) (a : α)
    (h0 : P a) (hstep : ∀ x b, P x → P (f x b)) : P (l.foldl f a) := by
  induction l generalizing a with
  | nil => exact h0
  | cons b rest ih => exact ih (f a b) (hstep a b h0)

theorem isObject_extractCommonResponses (spec : Json) :
    isObject (extractCommonResponses spec).1 = isObject spec := by
  unfold extractCommonResponses
  match hp : jgetJ spec "paths" with
  | some (.obj paths) =>
    simp only
    split
    · rfl
    · have := foldl_preserve (fun st : Json × Nat => isObject st.1 = isObject spec)
        (fun st g =>
          let st1 := setComponentsEntry st.1 "responses" g.2.2 g.2.1
          let r := replaceResp g.1 g.2.2 st1 []
          (r.1, st.2 + r.2))
        (assignRespRefNames (collectResponses spec [] []) 0)
        (ensureComponentsField spec "responses", 0)
        (by simp [isObject_ensureComponentsField])
        (by
          intro x b hx
          simp only
          rw [isObject_replaceResp, isObject_setComponentsEntry]
          exact hx)
      exact this
  | some (.str _) | some (.num _) | some (.bool _) | some .null | some (.arr _) => simp
  | none => simp

theorem isObject_extractCommonSchemas (spec : Json) :
    isObject (extractCommonSchemas spec).1 = isObject spec := by
  unfold extractCommonSchemas
  match hp : jgetJ spec "paths" with
  | some (.obj paths) =>
    simp only
    split
    · rfl
    · have := foldl_preserve (fun st : Json × Nat => isObject st.1 = isObject spec)
        (fun st g =>
          let st1 := setComponentsEntry st.1 "schemas" g.2.2 g.2.1
          let r := replaceSchema g.1 g.2.2 st1 []
          (r.1, st.2 + r.2))
        (assignSchemaRefNames (collectSchemas spec [] []) 0)
        (ensureComponentsField spec "schemas", 0)
        (by simp [isObject_ensureComponentsField])
        (by
          intro x b hx
          simp only
          rw [isObject_replaceSchema, isObject_setComponentsEntry]
          exact hx)
      exact this
  | some (.str _) | some (.num _) | some (.bool _) | some .null | some (.arr _) => simp
  | none => simp

theorem isObject_minifyObject (options : MinificationOptions) (fuel : Nat) (j : Json)
    (path : List String) : isObject (minifyObject options fuel j path) = isObject j := by
  match fuel with
  | 0 => simp [minifyObject]
  | fuel + 1 =>
    cases j
    case obj fs =>
      show isObject
        (if (path = [] && (fs.map Prod.fst).any fun k => protectedFields.contains k) = true then
          Json.obj (rootLoop options fuel (fs.map Prod.fst) fs)
        else Json.obj (keysLoop options fuel path (fs.map Prod.fst) fs)) = _
      split <;> rfl
    all_goals rfl

theorem isObject_rebuildComponents (spec : Json) (compsFs used : JObj) :
    isObject (rebuildComponents spec compsFs used) = isObject spec := by
  unfold rebuildComponents
  split
  · rw [isObject_jdelJ]
  · rw [isObject_jsetJ]

theorem isObject_removeUnusedComponents (spec : Json) :
    isObject (removeUnusedComponents spec) = isObject spec := by
  unfold removeUnusedComponents
  split
  · split
    · rw [isObject_rebuildComponents]
    · rfl
  · rfl

theorem isObject_restoreField (o s : Json) (f : String) :
    isObject (restoreField o s f) = isObject s := by
  unfold restoreField
  split
  · split <;> simp [isObject_jsetJ]
  · rfl

/-! ### The essential-field guard -/

theorem restoreField_truthy (o s : Json) (f : String) (hs : isObject s = true)
    (ho : truthyOpt (jgetJ o f) = true) :
    truthyOpt (jgetJ (restoreField o s f) f) = true := by
  unfold restoreField
  split
  · match hof : jgetJ o f with
    | some v =>
      rw [jgetJ_jsetJ_self _ _ _ hs]
      rw [hof] at ho
      exact ho
    | none => rw [hof] at ho; simp [truthyOpt] at ho
  · rename_i hcond
    simp only [Bool.not_eq_true] at hcond
    simp at hcond
    exact hcond

theorem restoreField_other (o s : Json) (f g : String) (h : g ≠ f) :
    jgetJ (restoreField o s f) g = jgetJ s g := by
  unfold restoreField
  split
  · split
    · exact jgetJ_jsetJ_ne _ _ _ _ h
    · rfl
  · rfl

theorem restoreField_truthy_other (o s : Json) (f g : String) (h : g ≠ f)
    (hg : truthyOpt (jgetJ s g) = true) :
    truthyOpt (jgetJ (restoreField o s f) g) = true := by
  rw [restoreField_other _ _ _ _ h]
  exact hg

theorem ensureEssentials_truthy (spec orig : Json) (hs : isObject spec = true)
    (h1 : truthyOpt (jgetJ orig "openapi") = true)
    (h2 : truthyOpt (jgetJ orig "info") = true)
    (h3 : truthyOpt (jgetJ orig "paths") = true) :
    truthyOpt (jgetJ (ensureEssentials spec orig) "openapi") = true ∧
    truthyOpt (jgetJ (ensureEssentials spec orig) "info") = true ∧
    truthyOpt (jgetJ (ensureEssentials spec orig) "paths") = true := by
  unfold ensureEssentials
  have hs1 : isObject (restoreField orig spec "openapi") = true := by
    rw [isObject_restoreField]; exact hs
  have hs2 : isObject (restoreField orig (restoreField orig spec "openapi") "info") = true := by
    rw [isObject_restoreField]; exact hs1
  refine ⟨?_, ?_, ?_⟩
  · apply restoreField_truthy_other _ _ _ _ (by decide)
    apply restoreField_truthy_other _ _ _ _ (by decide)
    exact restoreField_truthy _ _ _ hs h1
  · apply restoreField_truthy_other _ _ _ _ (by decide)
    exact restoreField_truthy _ _ _ hs1 h2
  · exact restoreField_truthy _ _ _ hs2 h3

/-- The passes preserve the object shape of the working document. -/
theorem isObject_minifyPasses (options : MinificationOptions) (orig : Json) :
    isObject (minifyPasses options orig) = isObject orig := by
  unfold minifyPasses
  dsimp only
  simp only [isObject_removeUnusedComponents, isObject_minifyObject,
    isObject_extractCommonResponses, isObject_extractCommonSchemas,
    apply_ite (Prod.fst : Json × Nat → Json), apply_ite isObject,
    isObject_removeDeprecatedPaths, isObject_deepClone, ite_self]

/-! ### Lemmas for the dead-branch pruner -/

theorem keptPaths_cons (k : String) (item : Json) (rest : JObj) :
    keptPaths ((k, item) :: rest) =
      match processPathItem item with
      | some v => (k, v) :: keptPaths rest
      | none => keptPaths rest := by
  unfold keptPaths
  simp only [List.map_cons, List.filterMap_cons]
  match processPathItem item with
  | some v => rfl
  | none => rfl

theorem removedPathsCount_cons (k : String) (item : Json) (rest : JObj) :
    removedPathsCount ((k, item) :: rest) =
      (match processPathItem item with
       | some _ => 0
       | none => 1) + removedPathsCount rest := by
  unfold removedPathsCount
  simp only [List.map_cons, List.filter_cons]
  match processPathItem item with
  | some v => simp
  | none =>
    simp
    omega

theorem jget_keptPaths_notin (paths : JObj) (p : String)
    (h : p ∉ paths.map Prod.fst) : jget (keptPaths paths) p = none := by
  induction paths with
  | nil => simp [keptPaths, jget]
  | cons q rest ih =>
    obtain ⟨k, item⟩ := q
    simp only [List.map_cons, List.mem_cons] at h
    push_neg at h
    obtain ⟨h1, h2⟩ := h
    rw [keptPaths_cons]
    match hpi : processPathItem item with
    | none => exact ih h2
    | some v =>
      have hne : k ≠ p := fun hh => h1 hh.symm
      rw [show jget ((k, v) :: keptPaths rest) p = jget (keptPaths rest) p from by
        simp [jget, hne]]
      exact ih h2

theorem jget_keptPaths (paths : JObj) (hnd : (paths.map Prod.fst).Nodup) (p : String) :
    jget (keptPaths paths) p = (jget paths p).bind processPathItem := by
  induction paths with
  | nil => simp [keptPaths, jget]
  | cons q rest ih =>
    obtain ⟨k, item⟩ := q
    simp only [List.map_cons, List.nodup_cons] at hnd
    obtain ⟨hk, hrest⟩ := hnd
    rw [keptPaths_cons]
    by_cases hp : k = p
    · subst hp
      rw [show jget ((k, item) :: rest) k = some item from by simp [jget]]
      match hpi : processPathItem item with
      | none =>
        rw [jget_keptPaths_notin rest k hk]
        simp [hpi]
      | some v =>
        rw [show jget ((k, v) :: keptPaths rest) k = some v from by simp [jget]]
        simp [hpi]
    · rw [show jget ((k, item) :: rest) p = jget rest p from by simp [jget, hp]]
      match hpi : processPathItem item with
      | none => exact ih hrest
      | some v =>
        rw [show jget ((k, v) :: keptPaths rest) p = jget (keptPaths rest) p from by
          simp [jget, hp]]
        exact ih hrest

theorem keptPaths_length (paths : JObj) :
    (keptPaths paths).length + removedPathsCount paths = paths.length := by
  induction paths with
  | nil => simp [keptPaths, removedPathsCount]
  | cons q rest ih =>
    obtain ⟨k, item⟩ := q
    rw [keptPaths_cons, removedPathsCount_cons]
    match processPathItem item with
    | none =>
      simp only [List.length_cons]
      omega
    | some v =>
      simp only [List.length_cons]
      omega

/-- The per-operation deletion loop of `removeDeprecatedPaths`, as a
read-back characterization: an operation in the list whose value is a
deprecated object ends up deleted, everything else is untouched. -/
theorem jget_foldDel (ops : List String) (fs : JObj) (hops : ops.Nodup) (k : String) :
    jget (ops.foldl (fun it op => if opDeprecated (jget it op) then jdel it op else it) fs) k =
      if k ∈ ops ∧ opDeprecated (jget fs k) = true then none else jget fs k := by
  induction ops generalizing fs with
  | nil => simp
  | cons op rest ih =>
    simp only [List.nodup_cons] at hops
    obtain ⟨hop, hrest⟩ := hops
    simp only [List.foldl_cons]
    rw [ih _ hrest]
    by_cases hk : k = op
    · subst hk
      have hnotin : k ∉ rest := hop
      by_cases hdep : opDeprecated (jget fs k) = true
      · simp [hdep, hnotin, jget_jdel_self]
      · simp [hdep, hnotin]
    · have hget : jget (if opDeprecated (jget fs op) = true then jdel fs op else fs) k =
          jget fs k := by
        split
        · exact jget_jdel_ne _ _ _ hk
        · rfl
      rw [hget]
      by_cases hmem : k ∈ rest
      · simp [hmem, hk]
      · simp [hmem, hk]

theorem operationsList_nodup : operationsList.Nodup := by decide

/-! ### Concrete documents and configurations used by the claim theorems -/

/-- A keep-everything configuration with a chosen preset. -/
def keepAllOpts (preset : Option String) : MinificationOptions :=
  { keepExamples := true, keepDescriptions := "all", keepSummaries := true,
    keepTags := true, removeDeprecated := false, extractCommonResponses := false,
    extractCommonSchemas := false, validate := false, preset := preset }

def extractRespMinOpts : MinificationOptions :=
  { keepAllOpts (some "min") with extractCommonResponses := true }

def extractSchemaMinOpts : MinificationOptions :=
  { keepAllOpts (some "min") with extractCommonSchemas := true }

/-- Three operations carrying the same inline `401` response. -/
def respUnauthorized : Json := .obj [("description", .str "Unauthorized")]

def opWith401 : Json := .obj [("responses", .obj [("401", respUnauthorized)])]

def docThreeIdenticalResponses : Json := .obj [
  ("openapi", .str "3.0.0"),
  ("info", .obj [("title", .str "t"), ("version", .str "1")]),
  ("paths", .obj [("/a", .obj [("get", opWith401)]), ("/b", .obj [("get", opWith401)]),
                  ("/c", .obj [("get", opWith401)])])]

/-- A document whose only schema `$ref` dangles and whose only table entry is
unused. -/
def docDanglingRef : Json := .obj [
  ("openapi", .str "3.0.0"),
  ("info", .obj [("title", .str "t"), ("version", .str "1")]),
  ("paths", .obj [("/a", .obj [("get", .obj [("responses", .obj [("200", .obj [
      ("description", .str "ok"),
      ("content", .obj [("application/json", .obj [("schema", .obj [
          ("$ref", .str "#/components/schemas/Missing")])])])])])])])]),
  ("components", .obj [("schemas", .obj [("Unused", .obj [("type", .str "string")])])])]

/-- A valid parse whose `info` holds only one object-valued field. -/
def docInfoEmptyObj : Json := .obj [
  ("openapi", .str "3.0.0"), ("info", .obj [("x", .obj [])]), ("paths", .obj [])]

/-- A response whose description is a single space. -/
def docBlankRespDesc : Json := .obj [
  ("openapi", .str "3.0.0"),
  ("info", .obj [("title", .str "t"), ("version", .str "1")]),
  ("paths", .obj [("/a", .obj [("get", .obj [("responses", .obj [("418", .obj [
      ("description", .str " ")])])])])])]

/-- An inline schema of canonical size 38 with no `type`. -/
def bareSchema : Json := .obj [("properties", .obj [("a", .obj [("type", .str "string")])])]

/-- The same canonical structure padded over the 50-character raw threshold
by an incidental `title`. -/
def titledSchema : Json := .obj [
  ("properties", .obj [("a", .obj [("type", .str "string")])]),
  ("title", .str "AAAAAAAAAAAAAAAAAAAAAAAA")]

def opWithSchema (s : Json) : Json := .obj [("responses", .obj [("200", .obj [
  ("description", .str "ok"),
  ("content", .obj [("application/json", .obj [("schema", s)])])])])]

/-- Three occurrences of one canonical schema structure, of which only the
titled one passes the worth-extracting filter. -/
def docSchemaTriple : Json := .obj [
  ("openapi", .str "3.0.0"),
  ("info", .obj [("title", .str "t"), ("version", .str "1")]),
  ("paths", .obj [("/a", .obj [("get", opWithSchema titledSchema)]),
                  ("/b", .obj [("get", opWithSchema bareSchema)]),
                  ("/c", .obj [("get", opWithSchema bareSchema)])])]

/-- A schema property carrying `format: email` and a pattern. -/
def emailProp : Json := .obj [("type", .str "string"), ("format", .str "email"),
  ("pattern", .str "^.+@.+$")]

def docEmailPattern : Json := .obj [
  ("openapi", .str "3.0.0"),
  ("info", .obj [("title", .str "t"), ("version", .str "1")]),
  ("paths", .obj [("/u", .obj [("get", .obj [("responses", .obj [("200", .obj [
      ("description", .str "ok"),
      ("content", .obj [("application/json", .obj [("schema", .obj [
          ("type", .str "object"),
          ("properties", .obj [("email", emailProp)])])])])])])])])])]

def emailPropPath : List String := ["paths", "/u", "get", "responses", "200", "content",
  "application/json", "schema", "properties", "email"]

/-- A parse result whose `openapi` field is present but the empty string. -/
def docEmptyOpenapi : Json := .obj [
  ("openapi", .str ""), ("info", .obj [("title", .str "t")]), ("paths", .obj [])]

/-! ### Claim theorems -/

/-- C6 counterexample: under preset `balanced` the `pattern` keyword is
deleted from the email property, where the claim says it is kept. -/
theorem C6_counterexample :
    jgetPath docEmailPattern (emailPropPath ++ ["pattern"]) = some (.str "^.+@.+$") ∧
    jgetPath (minifySpec (keepAllOpts (some "balanced")) docEmailPattern)
      (emailPropPath ++ ["pattern"]) = none := by
  constructor
  · rfl
  · rfl

/-- C6 (amended): for the schema property with `format: "email"` and
`pattern: "^.+@.+$"`, preset `max` deletes both keywords, preset `balanced`
also deletes both (its removal list contains `pattern`), and preset `min`
keeps both. -/
theorem C6_presets :
    jgetPath (minifySpec (keepAllOpts (some "max")) docEmailPattern) emailPropPath =
      some (.obj [("type", .str "string")]) ∧
    jgetPath (minifySpec (keepAllOpts (some "balanced")) docEmailPattern) emailPropPath =
      some (.obj [("type", .str "string")]) ∧
    jgetPath (minifySpec (keepAllOpts (some "min")) docEmailPattern) emailPropPath =
      some emailProp := by
  refine ⟨?_, ?_, ?_⟩ <;> rfl

/-- C7 counterexample: a schema whose canonical serialization (incidental
fields stripped) is below the 50-character threshold is nevertheless judged
worth extracting, because the code measures the raw serialization. -/
theorem C7_counterexample :
    (createSchemaKey titledSchema).length < 50 ∧
    isInlineSchemaWorthExtracting titledSchema = true := by
  constructor
  · decide
  · rfl

/-- C7 (amended): for object schemas the worth-extracting filter is exactly:
not a bare typed primitive, and the raw `JSON.stringify` serialization — the
incidental fields included, not the canonical form — is at least 50
characters. -/
theorem C7_worth_raw_serialization (schema : Json) (h : isObject schema = true) :
    isInlineSchemaWorthExtracting schema = true ↔
      isBarePrimitiveSchema schema = false ∧ 50 ≤ (stringify schema).length := by
  unfold isInlineSchemaWorthExtracting
  rw [h]
  by_cases hb : isBarePrimitiveSchema schema
  · simp [hb]
  · by_cases hl : (stringify schema).length < 50 <;> simp [hb, hl] <;> omega

theorem C7_witness :
    isObject titledSchema = true ∧
    (isBarePrimitiveSchema titledSchema = false ∧ 50 ≤ (stringify titledSchema).length) := by
  refine ⟨rfl, (C7_worth_raw_serialization titledSchema rfl).mp rfl⟩

/-- C9 counterexample: a parsed document whose `openapi` field is present
(so the document lacks none of the three fields) but empty still makes
`parseOpenAPI` raise, because the source tests truthiness, not presence. -/
theorem C9_counterexample :
    hasKey [("openapi", Json.str ""), ("info", Json.obj [("title", Json.str "t")]),
      ("paths", Json.obj [])] "openapi" = true ∧
    parseOpenAPI (.ok docEmptyOpenapi) =
      .error (wrapParseError "Missing \"openapi\" field") := by
  constructor
  · rfl
  · rfl

/-- C9 (amended): `parseOpenAPI` fails exactly when the external parse
fails, the value is falsy or not object-typed, or one of `openapi`, `info`,
`paths` is absent or JavaScript-falsy (an empty string counts); every error
of the parse and serialize stages carries the stage prefix with the root
message preserved inside it. -/
theorem C9_parse_errors :
    (∀ e, parseOpenAPI (.error e) = .error (wrapParseError e)) ∧
    (∀ j, parseOpenAPI (.ok j) = .ok j ↔
      (truthy j = true ∧ isObjLike j = true ∧
       truthyOpt (jgetJ j "openapi") = true ∧ truthyOpt (jgetJ j "info") = true ∧
       truthyOpt (jgetJ j "paths") = true)) ∧
    (∀ raw e, parseOpenAPI raw = .error e → ∃ root, e = wrapParseError root) ∧
    (∀ s, serializeOpenAPI (.ok s) = .ok s) ∧
    (∀ e, serializeOpenAPI (.error e) = .error (wrapSerializeError e)) := by
  refine ⟨fun e => rfl, fun j => ?_, fun raw e h => ?_, fun s => rfl, fun e => rfl⟩
  · constructor
    · intro h
      unfold parseOpenAPI at h
      dsimp only at h
      by_cases h1 : (!truthy j || !isObjLike j) = true
      · rw [if_pos h1] at h; exact absurd h (by simp)
      · rw [if_neg h1] at h
        simp only [Bool.or_eq_true, Bool.not_eq_true', not_or] at h1
        by_cases h2 : (!truthyOpt (jgetJ j "openapi")) = true
        · rw [if_pos h2] at h; exact absurd h (by simp)
        · rw [if_neg h2] at h
          by_cases h3 : (!truthyOpt (jgetJ j "info")) = true
          · rw [if_pos h3] at h; exact absurd h (by simp)
          · rw [if_neg h3] at h
            by_cases h4 : (!truthyOpt (jgetJ j "paths")) = true
            · rw [if_pos h4] at h; exact absurd h (by simp)
            · simp only [Bool.not_eq_true', Bool.not_eq_false] at h1 h2 h3 h4
              exact ⟨h1.1, h1.2, h2, h3, h4⟩
    · rintro ⟨h1, h2, h3, h4, h5⟩
      unfold parseOpenAPI
      dsimp only
      rw [if_neg (by simp [h1, h2]), if_neg (by simp [h3]), if_neg (by simp [h4]),
        if_neg (by simp [h5])]
  · match raw with
    | .error e0 =>
      refine ⟨e0, ?_⟩
      unfold parseOpenAPI at h
      simp only [Except.error.injEq] at h
      exact h.symm
    | .ok j =>
      unfold parseOpenAPI at h
      dsimp only at h
      by_cases h1 : (!truthy j || !isObjLike j) = true
      · rw [if_pos h1] at h
        exact ⟨_, (by simpa using h.symm)⟩
      · rw [if_neg h1] at h
        by_cases h2 : (!truthyOpt (jgetJ j "openapi")) = true
        · rw [if_pos h2] at h
          exact ⟨_, (by simpa using h.symm)⟩
        · rw [if_neg h2] at h
          by_cases h3 : (!truthyOpt (jgetJ j "info")) = true
          · rw [if_pos h3] at h
            exact ⟨_, (by simpa using h.symm)⟩
          · rw [if_neg h3] at h
            by_cases h4 : (!truthyOpt (jgetJ j "paths")) = true
            · rw [if_pos h4] at h
              exact ⟨_, (by simpa using h.symm)⟩
            · rw [if_neg h4] at h
              exact absurd h (by simp)

theorem C9_witness :
    parseOpenAPI (.error "bad input") = .error (wrapParseError "bad input") ∧
    parseOpenAPI (.ok docInfoEmptyObj) = .ok docInfoEmptyObj :=
  ⟨C9_parse_errors.1 "bad input",
   (C9_parse_errors.2.1 docInfoEmptyObj).mpr (by refine ⟨rfl, rfl, rfl, rfl, rfl⟩)⟩

/-- C2 counterexample: a valid input whose `info` is non-empty produces an
output whose `info` is the empty object — an empty object is truthy, so the
restoration guard does not fire. -/
theorem C2_counterexample :
    jgetJ docInfoEmptyObj "info" = some (.obj [("x", .obj [])]) ∧
    jgetJ (minifySpec (keepAllOpts none) docInfoEmptyObj) "info" = some (.obj []) := by
  constructor
  · rfl
  · rfl

/-- C2 (amended): for every valid parse (an object with truthy `openapi`,
`info`, `paths`) and every configuration, the output document contains all
three root fields with JavaScript-truthy values — a falsy field is restored
from the original — but an empty object is truthy, so `info` or `paths` may
be an empty mapping in the output. -/
theorem C2_root_fields_present (options : MinificationOptions) (orig : Json)
    (hobj : isObject orig = true)
    (h1 : truthyOpt (jgetJ orig "openapi") = true)
    (h2 : truthyOpt (jgetJ orig "info") = true)
    (h3 : truthyOpt (jgetJ orig "paths") = true) :
    truthyOpt (jgetJ (minifySpec options orig) "openapi") = true ∧
    truthyOpt (jgetJ (minifySpec options orig) "info") = true ∧
    truthyOpt (jgetJ (minifySpec options orig) "paths") = true := by
  have hp : isObject (minifyPasses options orig) = true := by
    rw [isObject_minifyPasses]
    exact hobj
  exact ensureEssentials_truthy _ _ hp h1 h2 h3

theorem C2_witness :
    truthyOpt (jgetJ (minifySpec (keepAllOpts none) docInfoEmptyObj) "openapi") = true ∧
    truthyOpt (jgetJ (minifySpec (keepAllOpts none) docInfoEmptyObj) "info") = true ∧
    truthyOpt (jgetJ (minifySpec (keepAllOpts none) docInfoEmptyObj) "paths") = true :=
  C2_root_fields_present (keepAllOpts none) docInfoEmptyObj rfl rfl rfl rfl

/-- C8: re-minifying the first run's output under the identical
configuration changes the document again: the response-extraction pass does
not skip `$ref`-only response objects (its schema counterpart does), so the
second run re-extracts them and overwrites `components.responses.Unauthorized`
with a self-referential reference stub. -/
theorem C8_second_run_changes_document :
    minifySpec extractRespMinOpts (minifySpec extractRespMinOpts docThreeIdenticalResponses) ≠
      minifySpec extractRespMinOpts docThreeIdenticalResponses ∧
    jgetPath (minifySpec extractRespMinOpts (minifySpec extractRespMinOpts
        docThreeIdenticalResponses)) ["components", "responses", "Unauthorized", "$ref"] =
      some (.str "#/components/responses/Unauthorized") := by
  constructor
  · decide
  · rfl

/-- C1 counterexample: with preset `max`, a `$ref` that dangled in the input
survives into the output while `components` is deleted entirely, so the
output's sole schema reference resolves to nothing. -/
theorem C1_counterexample :
    jgetPath (minifySpec (keepAllOpts (some "max")) docDanglingRef)
      ["paths", "/a", "get", "responses", "200", "content", "application/json",
       "schema", "$ref"] = some (.str "#/components/schemas/Missing") ∧
    directRefs (minifySpec (keepAllOpts (some "max")) docDanglingRef) = ["Missing"] ∧
    jgetJ (minifySpec (keepAllOpts (some "max")) docDanglingRef) "components" = none := by
  refine ⟨rfl, rfl, rfl⟩

/-- C3 counterexample: under `keepDescriptions: all`, a response description
consisting of one space normalizes to the empty string, so the output's
response object carries an empty description. -/
theorem C3_counterexample :
    jgetPath (minifySpec (keepAllOpts none) docBlankRespDesc)
      ["paths", "/a", "get", "responses", "418", "description"] = some (.str "") := by
  rfl

set_option maxRecDepth 4000 in
/-- C5 counterexample: a canonical schema structure occurring three times in
the document (as the pass's own replacement scan counts) is not extracted,
because only one occurrence passes the worth-extracting filter applied at
collection time; the pass leaves the document unchanged and returns 0. -/
theorem C5_counterexample :
    (replaceSchema (createSchemaKey bareSchema) "Extracted" docSchemaTriple []).2 = 3 ∧
    extractCommonSchemas docSchemaTriple = (docSchemaTriple, 0) ∧
    jgetJ (minifySpec extractSchemaMinOpts docSchemaTriple) "components" = none := by
  refine ⟨rfl, ?_, rfl⟩
  decide

/-- Path entries exercising every branch of the pruner: item-level
deprecation, all operations deprecated, a mix, no operations, and a
non-object entry. -/
def deprecatedOp : Json := .obj [("deprecated", .bool true), ("responses", .obj [])]

def liveOp : Json := .obj [("responses", .obj [])]

def pathsDeprecated : JObj :=
  [("/p1", .obj [("deprecated", .bool true), ("get", liveOp)]),
   ("/p2", .obj [("get", deprecatedOp), ("post", deprecatedOp)]),
   ("/p3", .obj [("get", deprecatedOp), ("post", liveOp)]),
   ("/p4", .obj [("summary", .str "s")]),
   ("/p5", .str "odd")]

def docDeprecatedPaths : Json := .obj [
  ("openapi", .str "3.0.0"), ("info", .obj [("title", .str "t")]),
  ("paths", .obj pathsDeprecated)]

theorem bind_some_eq {α β : Type} (a : α) (f : α → Option β) :
    (some a).bind f = f a := rfl

/-- C4: `removeDeprecatedPaths` removes every object path item whose own
`deprecated` flag is `true`; removes every path item that has operations and
all of them are objects marked `deprecated: true`; keeps a mixed path item
with exactly its non-deprecated operations (non-operation fields untouched);
and returns the number of whole paths removed. -/
theorem C4_removeDeprecatedPaths (spec : Json) (paths : JObj)
    (hp : jgetJ spec "paths" = some (.obj paths))
    (hnd : (paths.map Prod.fst).Nodup) :
    ∃ kept : JObj,
      jgetJ (removeDeprecatedPaths spec).1 "paths" = some (.obj kept) ∧
      (∀ p fs, jget paths p = some (.obj fs) →
        jget fs "deprecated" = some (.bool true) → jget kept p = none) ∧
      (∀ p fs, jget paths p = some (.obj fs) →
        operationsList.filter (fun op => hasKey fs op) ≠ [] →
        (∀ op ∈ operationsList.filter (fun op => hasKey fs op),
          opDeprecated (jget fs op) = true) →
        jget kept p = none) ∧
      (∀ p fs, jget paths p = some (.obj fs) →
        jget fs "deprecated" ≠ some (.bool true) →
        operationsList.filter (fun op => hasKey fs op) ≠ [] →
        ¬(∀ op ∈ operationsList.filter (fun op => hasKey fs op),
            opDeprecated (jget fs op) = true) →
        ∃ fs2, jget kept p = some (.obj fs2) ∧
          (∀ op ∈ operationsList,
            jget fs2 op = if opDeprecated (jget fs op) = true then none else jget fs op) ∧
          (∀ k, k ∉ operationsList → jget fs2 k = jget fs k)) ∧
      (removeDeprecatedPaths spec).2 + kept.length = paths.length ∧
      (∀ p, jget paths p = none → jget kept p = none) := by
  have hspec : ∃ sfs, spec = .obj sfs := by
    cases spec <;> simp [jgetJ] at hp ⊢
  obtain ⟨sfs, hs⟩ := hspec
  subst hs
  have hrm : removeDeprecatedPaths (.obj sfs) =
      (jsetJ (.obj sfs) "paths" (.obj (keptPaths paths)), removedPathsCount paths) := by
    unfold removeDeprecatedPaths
    rw [hp]
  refine ⟨keptPaths paths, ?_, ?_, ?_, ?_, ?_, ?_⟩
  · rw [hrm]
    exact jgetJ_jsetJ_self (.obj sfs) "paths" (.obj (keptPaths paths)) rfl
  · intro p fs hget hdep
    rw [jget_keptPaths paths hnd p, hget, bind_some_eq]
    unfold processPathItem
    dsimp only
    rw [if_pos hdep]
  · intro p fs hget hops hall
    rw [jget_keptPaths paths hnd p, hget, bind_some_eq]
    unfold processPathItem
    dsimp only
    by_cases hdep : jget fs "deprecated" = some (.bool true)
    · rw [if_pos hdep]
    · rw [if_neg hdep]
      rw [if_pos (by simpa using hops)]
      rw [if_pos (by rw [List.all_eq_true]; exact hall)]
  · intro p fs hget hdep hops hnall
    have hopsnd : (operationsList.filter (fun op => hasKey fs op)).Nodup :=
      operationsList_nodup.filter _
    obtain ⟨op0, hop0mem, hop0not⟩ : ∃ op ∈ operationsList.filter (fun op => hasKey fs op),
        ¬opDeprecated (jget fs op) = true := by
      by_contra hcon
      push_neg at hcon
      exact hnall hcon
    have hop0inops : op0 ∈ operationsList := (List.mem_filter.mp hop0mem).1
    have hop0has : hasKey fs op0 = true := by simpa using (List.mem_filter.mp hop0mem).2
    refine ⟨(operationsList.filter (fun op => hasKey fs op)).foldl
      (fun it op => if opDeprecated (jget it op) then jdel it op else it) fs, ?_, ?_, ?_⟩
    · rw [jget_keptPaths paths hnd p, hget, bind_some_eq]
      unfold processPathItem
      dsimp only
      rw [if_neg hdep]
      rw [if_pos (by simpa using hops)]
      rw [if_neg (by rw [List.all_eq_true]; exact fun hcon => hnall hcon)]
      rw [if_neg ?_]
      have hsurvive : jget ((operationsList.filter (fun op => hasKey fs op)).foldl
          (fun it op => if opDeprecated (jget it op) then jdel it op else it) fs) op0 =
          jget fs op0 := by
        rw [jget_foldDel _ _ hopsnd]
        rw [if_neg (by
          rintro ⟨_, hc⟩
          exact hop0not hc)]
      intro hempty
      have : op0 ∈ operationsList.filter (fun op => hasKey
          ((operationsList.filter (fun op => hasKey fs op)).foldl
            (fun it op => if opDeprecated (jget it op) then jdel it op else it) fs) op) := by
        rw [List.mem_filter]
        refine ⟨hop0inops, ?_⟩
        have hkk : hasKey ((operationsList.filter (fun op => hasKey fs op)).foldl
            (fun it op => if opDeprecated (jget it op) then jdel it op else it) fs) op0 =
            hasKey fs op0 := congrArg Option.isSome hsurvive
        simpa [hkk] using hop0has
      rw [hempty] at this
      simp at this
    · intro op hopmem
      rw [jget_foldDel _ _ hopsnd]
      by_cases hdep2 : opDeprecated (jget fs op) = true
      · rw [if_pos ?_, if_pos hdep2]
        refine ⟨?_, hdep2⟩
        rw [List.mem_filter]
        refine ⟨hopmem, ?_⟩
        have : (jget fs op).isSome = true := by
          unfold opDeprecated at hdep2
          match hv : jget fs op with
          | some (.obj o) => simp
          | some (.str _) | some (.num _) | some (.bool _) | some .null | some (.arr _) =>
            rw [hv] at hdep2; simp at hdep2
          | none => rw [hv] at hdep2; simp at hdep2
        simpa [hasKey] using this
      · rw [if_neg (by rintro ⟨_, hc⟩; exact hdep2 hc), if_neg hdep2]
    · intro k hknot
      rw [jget_foldDel _ _ hopsnd]
      rw [if_neg (by
        rintro ⟨hmem, _⟩
        exact hknot (List.mem_filter.mp hmem).1)]
  · rw [hrm]
    dsimp only
    rw [Nat.add_comm]
    exact keptPaths_length paths
  · intro p hnone
    rw [jget_keptPaths paths hnd p, hnone]
    rfl

theorem C4_witness :
    ∃ kept : JObj,
      jgetJ (removeDeprecatedPaths docDeprecatedPaths).1 "paths" = some (.obj kept) ∧
      (∀ p fs, jget pathsDeprecated p = some (.obj fs) →
        jget fs "deprecated" = some (.bool true) → jget kept p = none) ∧
      (∀ p fs, jget pathsDeprecated p = some (.obj fs) →
        operationsList.filter (fun op => hasKey fs op) ≠ [] →
        (∀ op ∈ operationsList.filter (fun op => hasKey fs op),
          opDeprecated (jget fs op) = true) →
        jget kept p = none) ∧
      (∀ p fs, jget pathsDeprecated p = some (.obj fs) →
        jget fs "deprecated" ≠ some (.bool true) →
        operationsList.filter (fun op => hasKey fs op) ≠ [] →
        ¬(∀ op ∈ operationsList.filter (fun op => hasKey fs op),
            opDeprecated (jget fs op) = true) →
        ∃ fs2, jget kept p = some (.obj fs2) ∧
          (∀ op ∈ operationsList,
            jget fs2 op = if opDeprecated (jget fs op) = true then none else jget fs op) ∧
          (∀ k, k ∉ operationsList → jget fs2 k = jget fs k)) ∧
      (removeDeprecatedPaths docDeprecatedPaths).2 + kept.length = pathsDeprecated.length ∧
      (∀ p, jget pathsDeprecated p = none → jget kept p = none) :=
  C4_removeDeprecatedPaths docDeprecatedPaths pathsDeprecated rfl (by decide)

/-! ### Lemmas for the response cleaner -/

theorem lookup_mem_values {α β : Type} [BEq α] (l : List (α × β)) (k : α) (v : β)
    (h : l.lookup k = some v) : v ∈ l.map Prod.snd := by
  induction l with
  | nil => simp [List.lookup] at h
  | cons p rest ih =>
    obtain ⟨a, b⟩ := p
    rw [List.lookup] at h
    by_cases hk : (k == a) = true
    · simp only [hk] at h
      simp only [Option.some.injEq] at h
      simp [← h]
    · simp only [Bool.not_eq_true] at hk
      simp only [hk] at h
      simp only [List.map_cons, List.mem_cons]
      exact Or.inr (ih h)

theorem getMinimalResponseDescription_ne_empty (s : String) :
    getMinimalResponseDescription s ≠ "" := by
  unfold getMinimalResponseDescription
  match h : minimalDescriptions.lookup s with
  | none => simp
  | some v =>
    have hv := lookup_mem_values _ _ _ h
    simp only [Option.getD_some]
    simp only [minimalDescriptions, List.map_cons, List.map_nil, List.mem_cons,
      List.mem_singleton] at hv
    rcases hv with rfl | rfl | rfl | rfl | rfl | rfl | rfl | rfl | rfl | rfl | rfl | rfl | h0
    all_goals first
      | decide
      | simp at h0

/-- The table phrases and the fallback are fixed points of the description
normalizer, so the later traversal leaves them intact. -/
theorem getMinimalResponseDescription_normalized (s : String) :
    minifyDescriptionText (getMinimalResponseDescription s) =
      getMinimalResponseDescription s := by
  unfold getMinimalResponseDescription
  match h : minimalDescriptions.lookup s with
  | none => simp only [Option.getD_none]; decide
  | some v =>
    have hv := lookup_mem_values _ _ _ h
    simp only [Option.getD_some]
    simp only [minimalDescriptions, List.map_cons, List.map_nil, List.mem_cons,
      List.mem_singleton] at hv
    rcases hv with rfl | rfl | rfl | rfl | rfl | rfl | rfl | rfl | rfl | rfl | rfl | rfl | h0
    all_goals first
      | decide
      | simp at h0

theorem cleanResponses_cons (k : String) (v : Json) (rest : JObj)
    (options : MinificationOptions) :
    cleanResponses ((k, v) :: rest) options =
      (match v with
       | .obj fs => (k, Json.obj (cleanResponseEntry options k fs))
       | _ => (k, v)) :: cleanResponses rest options := by
  unfold cleanResponses
  simp only [List.map_cons]

theorem jget_cleanResponses (responses : JObj) (options : MinificationOptions) (s : String) :
    jget (cleanResponses responses options) s = (jget responses s).map (fun v =>
      match v with
      | .obj fs => Json.obj (cleanResponseEntry options s fs)
      | _ => v) := by
  induction responses with
  | nil => rfl
  | cons p rest ih =>
    obtain ⟨k, v⟩ := p
    rw [cleanResponses_cons]
    by_cases hk : k = s
    · subst hk
      match v with
      | .obj fs => simp [jget]
      | .str a => simp [jget]
      | .num a => simp [jget]
      | .bool a => simp [jget]
      | .null => simp [jget]
      | .arr a => simp [jget]
    · match v with
      | .obj fs =>
        rw [show jget ((k, Json.obj (cleanResponseEntry options k fs)) ::
            cleanResponses rest options) s = jget (cleanResponses rest options) s from by
          simp [jget, hk]]
        rw [ih]
        simp [jget, hk]
      | .str a => simpa [jget, hk] using ih
      | .num a => simpa [jget, hk] using ih
      | .bool a => simpa [jget, hk] using ih
      | .null => simpa [jget, hk] using ih
      | .arr a => simpa [jget, hk] using ih

/-- The example-stripping half of `cleanResponseEntry` does not touch the
description field. -/
theorem cleanResponseEntry_description (options : MinificationOptions) (s : String)
    (response : JObj) :
    jget (cleanResponseEntry options s response) "description" =
      (if truthyOpt (jget response "description") = false then
        some (.str (getMinimalResponseDescription s))
      else if options.keepDescriptions = "none" then
        some (.str (getMinimalResponseDescription s))
      else
        match jget response "description" with
        | some (.str d) => some (.str (minifyDescriptionText d))
        | other => other) := by
  unfold cleanResponseEntry
  dsimp only
  set cleaned1 := (if (!truthyOpt (jget response "description")) = true then
      jset response "description" (.str (getMinimalResponseDescription s))
    else if options.keepDescriptions = "none" then
      jset response "description" (.str (getMinimalResponseDescription s))
    else
      match jget response "description" with
      | some (.str d) => jset response "description" (.str (minifyDescriptionText d))
      | _ => response) with hc1
  have hdesc : jget cleaned1 "description" =
      (if truthyOpt (jget response "description") = false then
        some (.str (getMinimalResponseDescription s))
      else if options.keepDescriptions = "none" then
        some (.str (getMinimalResponseDescription s))
      else
        match jget response "description" with
        | some (.str d) => some (.str (minifyDescriptionText d))
        | other => other) := by
    rw [hc1]
    by_cases h1 : truthyOpt (jget response "description") = false
    · rw [if_pos (by simp [h1]), if_pos h1]
      exact jget_jset_self _ _ _
    · rw [if_neg (by simp at h1; simp [h1]), if_neg h1]
      by_cases h2 : options.keepDescriptions = "none"
      · rw [if_pos h2, if_pos h2]
        exact jget_jset_self _ _ _
      · rw [if_neg h2, if_neg h2]
        match hd : jget response "description" with
        | some (.str d) => exact jget_jset_self _ _ _
        | some (.num a) | some (.bool a) | some (.arr a) | some (.obj a) | some .null =>
          exact hd
        | none => exact hd
  by_cases hke : (!options.keepExamples) = true
  · rw [if_pos hke]
    match hco : jget cleaned1 "content" with
    | some (.obj content) =>
      rw [jget_jset_ne _ _ _ _ (by decide)]
      exact hdesc
    | some (.str a) | some (.num a) | some (.bool a) | some (.arr a) | some .null =>
      exact hdesc
    | none => exact hdesc
  · rw [if_neg hke]
    exact hdesc

/-- C3 (amended): after the response-cleaning pass, every object entry of a
`responses` object carries a description that is the non-empty table phrase
whenever the original description was absent or JavaScript-falsy, or
whenever `keepDescriptions` is `none`; in every other case where the
original description is a string it is kept as its normalized text, which
can be empty (for instance a whitespace-only description).  The table
phrases are fixed points of the normalizer, so the rest of the traversal
preserves them. -/
theorem C3_response_description (options : MinificationOptions) (responses : JObj)
    (s : String) (fs : JObj) (hget : jget responses s = some (.obj fs)) :
    ∃ cleaned : JObj,
      jget (cleanResponses responses options) s = some (.obj cleaned) ∧
      (truthyOpt (jget fs "description") = false →
        jget cleaned "description" = some (.str (getMinimalResponseDescription s)) ∧
        getMinimalResponseDescription s ≠ "") ∧
      (options.keepDescriptions = "none" →
        jget cleaned "description" = some (.str (getMinimalResponseDescription s)) ∧
        getMinimalResponseDescription s ≠ "") ∧
      (∀ d, truthyOpt (jget fs "description") = true → options.keepDescriptions ≠ "none" →
        jget fs "description" = some (.str d) →
        jget cleaned "description" = some (.str (minifyDescriptionText d))) ∧
      minifyDescriptionText (getMinimalResponseDescription s) =
        getMinimalResponseDescription s := by
  refine ⟨cleanResponseEntry options s fs, ?_, ?_, ?_, ?_,
    getMinimalResponseDescription_normalized s⟩
  · rw [jget_cleanResponses, hget]
    rfl
  · intro h1
    refine ⟨?_, getMinimalResponseDescription_ne_empty s⟩
    rw [cleanResponseEntry_description, if_pos h1]
  · intro h2
    refine ⟨?_, getMinimalResponseDescription_ne_empty s⟩
    rw [cleanResponseEntry_description]
    by_cases h1 : truthyOpt (jget fs "description") = false
    · rw [if_pos h1]
    · rw [if_neg h1, if_pos h2]
  · intro d h1 h2 hd
    rw [cleanResponseEntry_description, if_neg (by simp [h1]), if_neg h2, hd]

theorem C3_witness :
    ∃ cleaned : JObj,
      jget (cleanResponses [("404", Json.obj [])] (keepAllOpts none)) "404" =
        some (.obj cleaned) ∧
      (truthyOpt (jget ([] : JObj) "description") = false →
        jget cleaned "description" = some (.str (getMinimalResponseDescription "404")) ∧
        getMinimalResponseDescription "404" ≠ "") ∧
      ((keepAllOpts none).keepDescriptions = "none" →
        jget cleaned "description" = some (.str (getMinimalResponseDescription "404")) ∧
        getMinimalResponseDescription "404" ≠ "") ∧
      (∀ d, truthyOpt (jget ([] : JObj) "description") = true →
        (keepAllOpts none).keepDescriptions ≠ "none" →
        jget ([] : JObj) "description" = some (.str d) →
        jget cleaned "description" = some (.str (minifyDescriptionText d))) ∧
      minifyDescriptionText (getMinimalResponseDescription "404") =
        getMinimalResponseDescription "404" :=
  C3_response_description (keepAllOpts none) [("404", Json.obj [])] "404" [] rfl

/-! ### C1: reachability preservation of the unused-component pruning -/

/-- The reference budget of the not-yet-visited table entries: an upper
bound on the worklist growth still possible for the closure. -/
def potential (table : JObj) (acc : List String) : Nat :=
  match table with
  | [] => 0
  | (k, b) :: rest => (if k ∈ acc then 0 else refsLen b) + potential rest acc

theorem potential_mono (table : JObj) (acc acc2 : List String)
    (h : ∀ x ∈ acc, x ∈ acc2) : potential table acc2 ≤ potential table acc := by
  induction table with
  | nil => exact Nat.le_refl _
  | cons p rest ih =>
    obtain ⟨k, b⟩ := p
    show (if k ∈ acc2 then 0 else refsLen b) + potential rest acc2 ≤
      (if k ∈ acc then 0 else refsLen b) + potential rest acc
    by_cases hk : k ∈ acc
    · rw [if_pos hk, if_pos (h k hk)]
      omega
    · rw [if_neg hk]
      by_cases hk2 : k ∈ acc2
      · rw [if_pos hk2]; omega
      · rw [if_neg hk2]; omega

theorem potential_nil (table : JObj) :
    potential table [] = (table.map (fun p => refsLen p.2)).sum := by
  induction table with
  | nil => rfl
  | cons p rest ih =>
    obtain ⟨k, b⟩ := p
    show (if k ∈ ([] : List String) then 0 else refsLen b) + potential rest [] = _
    rw [if_neg (List.not_mem_nil k), List.map_cons, List.sum_cons, ih]

theorem potential_insert (acc : List String) (n : String) (body : Json)
    (hn : n ∉ acc) :
    ∀ table : JObj, jget table n = some body →
      potential table (acc ++ [n]) + refsLen body ≤ potential table acc := by
  intro table
  induction table with
  | nil => intro hb; exact absurd hb (by simp [jget])
  | cons p rest ih =>
    obtain ⟨k, b⟩ := p
    intro hb
    show (if k ∈ acc ++ [n] then 0 else refsLen b) + potential rest (acc ++ [n]) +
        refsLen body ≤ (if k ∈ acc then 0 else refsLen b) + potential rest acc
    by_cases hk : k = n
    · have hbb : b = body := by
        unfold jget at hb
        rw [if_pos hk] at hb
        exact Option.some.inj hb
      have hk1 : k ∈ acc ++ [n] := by
        rw [hk]; exact List.mem_append_right _ (List.mem_singleton.mpr rfl)
      have hk2 : ¬ k ∈ acc := by rw [hk]; exact hn
      rw [if_pos hk1, if_neg hk2, hbb]
      have hmono := potential_mono rest acc (acc ++ [n])
        (fun x hx => List.mem_append_left _ hx)
      omega
    · have hb2 : jget rest n = some body := by
        unfold jget at hb
        rw [if_neg hk] at hb
        exact hb
      have hiff : k ∈ acc ++ [n] ↔ k ∈ acc := by
        constructor
        · intro h
          rcases List.mem_append.mp h with h | h
          · exact h
          · exact absurd (List.mem_singleton.mp h) hk
        · exact fun h => List.mem_append_left _ h
      have hrec := ih hb2
      by_cases hka : k ∈ acc
      · rw [if_pos (hiff.mpr hka), if_pos hka]; omega
      · rw [if_neg (fun h => hka (hiff.mp h)), if_neg hka]; omega

/-- Invariant of the closure worklist: every reference out of a visited
name's table body is itself visited or still queued. -/
def closeInv (table : JObj) (acc wl : List String) : Prop :=
  ∀ n ∈ acc, ∀ body, jget table n = some body →
    ∀ m ∈ findReferences body [], m ∈ acc ∨ m ∈ wl

theorem closeRefs_main (table : JObj) :
    ∀ fuel wl acc, wl.length + potential table acc < fuel →
      closeInv table acc wl →
      (∀ x, (x ∈ acc ∨ x ∈ wl) → x ∈ closeRefs table fuel wl acc) ∧
      (∀ n ∈ closeRefs table fuel wl acc, ∀ body, jget table n = some body →
        ∀ m ∈ findReferences body [], m ∈ closeRefs table fuel wl acc) := by
  intro fuel
  induction fuel with
  | zero =>
    intro wl acc hb _
    exact absurd hb (Nat.not_lt_zero _)
  | succ fuel ih =>
    intro wl acc hb hinv
    cases wl with
    | nil =>
      have heq : closeRefs table (fuel + 1) [] acc = acc := rfl
      rw [heq]
      constructor
      · intro x hx
        rcases hx with hx | hx
        · exact hx
        · exact absurd hx (List.not_mem_nil x)
      · intro n hn body hbody m hm
        rcases hinv n hn body hbody m hm with h | h
        · exact h
        · exact absurd h (List.not_mem_nil m)
    | cons n rest =>
      by_cases hacc : n ∈ acc
      · have heq : closeRefs table (fuel + 1) (n :: rest) acc =
            closeRefs table fuel rest acc := by
          show (if n ∈ acc then closeRefs table fuel rest acc
            else match jget table n with
              | some body =>
                closeRefs table fuel (findReferences body [] ++ rest) (acc ++ [n])
              | none => closeRefs table fuel rest (acc ++ [n])) = _
          rw [if_pos hacc]
        have hb2 : rest.length + potential table acc < fuel := by
          rw [List.length_cons] at hb
          omega
        have hinv2 : closeInv table acc rest := by
          intro a ha body hbody m hm
          rcases hinv a ha body hbody m hm with h | h
          · exact Or.inl h
          · rcases List.mem_cons.mp h with h | h
            · exact Or.inl (by rw [h]; exact hacc)
            · exact Or.inr h
        obtain ⟨h1, h2⟩ := ih rest acc hb2 hinv2
        rw [heq]
        refine ⟨?_, h2⟩
        intro x hx
        apply h1
        rcases hx with hx | hx
        · exact Or.inl hx
        · rcases List.mem_cons.mp hx with h | h
          · exact Or.inl (by rw [h]; exact hacc)
          · exact Or.inr h
      · cases hjt : jget table n with
        | some body =>
          have heq : closeRefs table (fuel + 1) (n :: rest) acc =
              closeRefs table fuel (findReferences body [] ++ rest) (acc ++ [n]) := by
            show (if n ∈ acc then closeRefs table fuel rest acc
              else match jget table n with
                | some body =>
                  closeRefs table fuel (findReferences body [] ++ rest) (acc ++ [n])
                | none => closeRefs table fuel rest (acc ++ [n])) = _
            rw [if_neg hacc, hjt]
          have hpot := potential_insert acc n body hacc table hjt
          have hb2 : (findReferences body [] ++ rest).length +
              potential table (acc ++ [n]) < fuel := by
            rw [List.length_append]
            rw [List.length_cons] at hb
            have hrl : (findReferences body []).length = refsLen body := rfl
            rw [hrl]
            omega
          have hinv2 : closeInv table (acc ++ [n]) (findReferences body [] ++ rest) := by
            intro a ha bodya hba m hm
            rcases List.mem_append.mp ha with ha | ha
            · rcases hinv a ha bodya hba m hm with h | h
              · exact Or.inl (List.mem_append_left _ h)
              · rcases List.mem_cons.mp h with h | h
                · exact Or.inl (List.mem_append_right _ (List.mem_singleton.mpr h))
                · exact Or.inr (List.mem_append_right _ h)
            · have han : a = n := List.mem_singleton.mp ha
              subst han
              rw [hjt] at hba
              have hbb : body = bodya := Option.some.inj hba
              have hm2 : m ∈ findReferences body [] := by rw [hbb]; exact hm
              exact Or.inr (List.mem_append_left _ hm2)
          obtain ⟨h1, h2⟩ := ih _ _ hb2 hinv2
          rw [heq]
          refine ⟨?_, h2⟩
          intro x hx
          apply h1
          rcases hx with hx | hx
          · exact Or.inl (List.mem_append_left _ hx)
          · rcases List.mem_cons.mp hx with h | h
            · exact Or.inl (List.mem_append_right _ (List.mem_singleton.mpr h))
            · exact Or.inr (List.mem_append_right _ h)
        | none =>
          have heq : closeRefs table (fuel + 1) (n :: rest) acc =
              closeRefs table fuel rest (acc ++ [n]) := by
            show (if n ∈ acc then closeRefs table fuel rest acc
              else match jget table n with
                | some body =>
                  closeRefs table fuel (findReferences body [] ++ rest) (acc ++ [n])
                | none => closeRefs table fuel rest (acc ++ [n])) = _
            rw [if_neg hacc, hjt]
          have hmono := potential_mono table acc (acc ++ [n])
            (fun x hx => List.mem_append_left _ hx)
          have hb2 : rest.length + potential table (acc ++ [n]) < fuel := by
            rw [List.length_cons] at hb
            omega
          have hinv2 : closeInv table (acc ++ [n]) rest := by
            intro a ha bodya hba m hm
            rcases List.mem_append.mp ha with ha | ha
            · rcases hinv a ha bodya hba m hm with h | h
              · exact Or.inl (List.mem_append_left _ h)
              · rcases List.mem_cons.mp h with h | h
                · exact Or.inl (List.mem_append_right _ (List.mem_singleton.mpr h))
                · exact Or.inr h
            · have han : a = n := List.mem_singleton.mp ha
              subst han
              rw [hjt] at hba
              exact absurd hba (by simp)
          obtain ⟨h1, h2⟩ := ih _ _ hb2 hinv2
          rw [heq]
          refine ⟨?_, h2⟩
          intro x hx
          apply h1
          rcases hx with hx | hx
          · exact Or.inl (List.mem_append_left _ hx)
          · rcases List.mem_cons.mp hx with h | h
            · exact Or.inl (List.mem_append_right _ (List.mem_singleton.mpr h))
            · exact Or.inr h

theorem referencedSchemas_props (spec : Json) (table : JObj) :
    (∀ x ∈ directRefs spec, x ∈ referencedSchemas spec table) ∧
    (∀ n ∈ referencedSchemas spec table, ∀ body, jget table n = some body →
      ∀ m ∈ findReferences body [], m ∈ referencedSchemas spec table) := by
  have hb : (directRefs spec).length + potential table [] <
      closureFuel table (directRefs spec) := by
    rw [potential_nil]
    show _ < (directRefs spec).length + (table.map (fun p => refsLen p.2)).sum + 1
    omega
  have hinv : closeInv table [] (directRefs spec) := by
    intro a ha
    exact absurd ha (List.not_mem_nil a)
  obtain ⟨h1, h2⟩ := closeRefs_main table (closureFuel table (directRefs spec))
    (directRefs spec) [] hb hinv
  exact ⟨fun x hx => h1 x (Or.inr hx), h2⟩

theorem jget_insertAll (table : JObj) (m : String) :
    ∀ (refs : List String) (acc : JObj),
      jget (refs.foldl (fun acc n =>
        match jget table n with
        | some v => if truthy v then jset acc n v else acc
        | none => acc) acc) m =
      if m ∈ refs ∧ truthyOpt (jget table m) = true then jget table m else jget acc m := by
  intro refs
  induction refs with
  | nil =>
    intro acc
    rw [List.foldl_nil, if_neg]
    rintro ⟨h, _⟩
    exact absurd h (List.not_mem_nil m)
  | cons n rest ih =>
    intro acc
    rw [List.foldl_cons, ih]
    by_cases hr : m ∈ rest ∧ truthyOpt (jget table m) = true
    · rw [if_pos hr, if_pos ⟨List.mem_cons_of_mem n hr.1, hr.2⟩]
    · rw [if_neg hr]
      by_cases hm : m = n
      · subst hm
        cases hjt : jget table m with
        | some v =>
          have hexp : jget (match some v with
              | some v => if truthy v then jset acc m v else acc
              | none => acc) m =
              jget (if truthy v then jset acc m v else acc) m := rfl
          rw [hexp]
          by_cases hv : truthy v = true
          · rw [if_pos hv, jget_jset_self, if_pos ⟨List.mem_cons_self m rest, hv⟩]
          · rw [if_neg hv, if_neg (fun hc => hv hc.2)]
        | none =>
          have hcond : ¬(m ∈ m :: rest ∧ truthyOpt (none : Option Json) = true) := by
            rintro ⟨_, hsome⟩
            exact absurd hsome (by decide)
          rw [if_neg hcond]
      · have hcond : ¬(m ∈ n :: rest ∧ truthyOpt (jget table m) = true) := by
          rintro ⟨hc, hsome⟩
          rcases List.mem_cons.mp hc with h | h
          · exact hm h
          · exact hr ⟨h, hsome⟩
        rw [if_neg hcond]
        cases hjt : jget table n with
        | some v =>
          by_cases hv : truthy v = true
          · have hexp : (match some v with
                | some v => if truthy v then jset acc n v else acc
                | none => acc) = jset acc n v := by
              show (if truthy v then jset acc n v else acc) = jset acc n v
              rw [if_pos hv]
            rw [hexp]
            exact jget_jset_ne acc n m v hm
          · have hexp : (match some v with
                | some v => if truthy v then jset acc n v else acc
                | none => acc) = acc := by
              show (if truthy v then jset acc n v else acc) = acc
              rw [if_neg hv]
            rw [hexp]
        | none => rfl

theorem jget_usedSchemas (spec : Json) (table : JObj) (m : String) :
    jget (usedSchemas spec table) m =
      if m ∈ referencedSchemas spec table ∧ truthyOpt (jget table m) = true
      then jget table m else none := by
  unfold usedSchemas
  rw [jget_insertAll table m (referencedSchemas spec table) []]
  rfl

theorem jset_ne_nil (fs : JObj) (k : String) (v : Json) : jset fs k v ≠ [] := by
  cases fs with
  | nil => exact fun h => List.noConfusion h
  | cons p rest =>
    obtain ⟨k2, v2⟩ := p
    show (if k2 = k then (k2, v) :: rest else (k2, v2) :: jset rest k v) ≠ []
    by_cases h : k2 = k
    · rw [if_pos h]; exact fun h2 => List.noConfusion h2
    · rw [if_neg h]; exact fun h2 => List.noConfusion h2

theorem jgetPath_cons (j : Json) (k : String) (ks : List String) :
    jgetPath j (k :: ks) = (jgetJ j k).bind (fun v => jgetPath v ks) := by
  cases h : jgetJ j k with
  | some v =>
    show (match jgetJ j k with | some v => jgetPath v ks | none => none) = _
    rw [h]
    rfl
  | none =>
    show (match jgetJ j k with | some v => jgetPath v ks | none => none) = _
    rw [h]
    rfl

theorem jgetPath_rebuildComponents (sfs compsFs used : JObj) (n : String) :
    jgetPath (rebuildComponents (.obj sfs) compsFs used) ["components", "schemas", n] =
      jget used n := by
  have hpr : jget (prunedComponents compsFs used) "schemas" =
      if used = [] then none else some (.obj used) := by
    unfold prunedComponents
    by_cases hu : used = []
    · rw [if_pos hu, if_pos hu, jget_jdel_self]
    · rw [if_neg hu, if_neg hu, jget_jset_self]
  unfold rebuildComponents
  by_cases hp : prunedComponents compsFs used = []
  · rw [if_pos hp]
    have hused : used = [] := by
      by_contra hu
      unfold prunedComponents at hp
      rw [if_neg hu] at hp
      exact jset_ne_nil compsFs "schemas" (.obj used) hp
    rw [jgetPath_cons]
    have h1 : jgetJ (jdelJ (Json.obj sfs) "components") "components" = none := by
      show jget (jdel sfs "components") "components" = none
      exact jget_jdel_self sfs "components"
    rw [h1, hused]
    rfl
  · rw [if_neg hp]
    rw [jgetPath_cons]
    have h1 : jgetJ (jsetJ (Json.obj sfs) "components"
        (.obj (prunedComponents compsFs used))) "components" =
        some (.obj (prunedComponents compsFs used)) := by
      show jget (jset sfs "components" (.obj (prunedComponents compsFs used)))
        "components" = _
      exact jget_jset_self sfs "components" _
    rw [h1]
    simp only [bind_some_eq]
    rw [jgetPath_cons]
    by_cases hu : used = []
    · have h2 : jgetJ (Json.obj (prunedComponents compsFs used)) "schemas" = none := by
        show jget (prunedComponents compsFs used) "schemas" = none
        rw [hpr, if_pos hu]
      rw [h2, hu]
      rfl
    · have h2 : jgetJ (Json.obj (prunedComponents compsFs used)) "schemas" =
          some (.obj used) := by
        show jget (prunedComponents compsFs used) "schemas" = some (.obj used)
        rw [hpr, if_neg hu]
      rw [h2]
      simp only [bind_some_eq]
      rw [jgetPath_cons]
      have h3 : jgetJ (Json.obj used) n = jget used n := rfl
      rw [h3]
      cases jget used n with
      | some v => rfl
      | none => rfl

theorem jgetPath_removeUnusedComponents (sfs compsFs table : JObj)
    (hc : jget sfs "components" = some (.obj compsFs))
    (hs : jget compsFs "schemas" = some (.obj table)) (n : String) :
    jgetPath (removeUnusedComponents (.obj sfs)) ["components", "schemas", n] =
      if n ∈ referencedSchemas (.obj sfs) table ∧ truthyOpt (jget table n) = true
      then jget table n else none := by
  have heq : removeUnusedComponents (Json.obj sfs) =
      rebuildComponents (Json.obj sfs) compsFs (usedSchemas (Json.obj sfs) table) := by
    unfold removeUnusedComponents
    have hc2 : jgetJ (Json.obj sfs) "components" = some (Json.obj compsFs) := hc
    rw [hc2]
    dsimp only
    rw [hs]
  rw [heq, jgetPath_rebuildComponents, jget_usedSchemas]

/-- A schema table with a used chain `A → B`, an unused entry `C`, and a
referenced entry `D` whose body is the falsy boolean schema `false`. -/
def usedChainTable : JObj :=
  [("A", .obj [("$ref", .str "#/components/schemas/B")]),
   ("B", .obj [("type", .str "object")]),
   ("C", .obj [("type", .str "string")]),
   ("D", .bool false)]

/-- A document whose paths reference schemas `A` (which references `B`) and
`D`; schema `C` is unreferenced. -/
def usedChainFields : JObj :=
  [("openapi", .str "3.0.0"),
   ("info", .obj [("title", .str "t")]),
   ("paths", .obj [
     ("/a", .obj [("get", .obj [("responses", .obj [("200", .obj
       [("content", .obj [("application/json", .obj [("schema", .obj
         [("$ref", .str "#/components/schemas/A")])])])])])])]),
     ("/b", .obj [("get", .obj [("responses", .obj [("200", .obj
       [("content", .obj [("application/json", .obj [("schema", .obj
         [("$ref", .str "#/components/schemas/D")])])])])])])])]),
   ("components", .obj [("schemas", .obj usedChainTable)])]

/-- C1 (amended): when `removeUnusedComponents` runs on a document with a
`components.schemas` table, (1) every schema name directly referenced
outside `components` whose table entry has a JavaScript-truthy body
survives in the output's `components.schemas` with its body unchanged,
(2) the kept set is transitively closed: a reference found inside a kept
schema's body that names an existing table entry with a truthy body is also
kept with its body unchanged, (3) every name outside the computed reachable
set is absent from the output's `components.schemas`, and (4) a table entry
with a falsy body (`false`, `null`, `""`, `0`) is pruned even when
referenced, leaving its reference dangling.  (References that dangle in the
input remain dangling, and references occurring only inside `components` —
e.g. in `components.responses` — are not scanned, so their targets may be
pruned.) -/
theorem C1_reachable_schemas_kept (sfs compsFs table : JObj)
    (hc : jget sfs "components" = some (.obj compsFs))
    (hs : jget compsFs "schemas" = some (.obj table)) :
    (∀ n ∈ directRefs (.obj sfs), ∀ body, jget table n = some body →
      truthy body = true →
      jgetPath (removeUnusedComponents (.obj sfs)) ["components", "schemas", n] =
        some body) ∧
    (∀ n ∈ referencedSchemas (.obj sfs) table, ∀ body, jget table n = some body →
      ∀ m ∈ findReferences body [], ∀ bodym, jget table m = some bodym →
        truthy bodym = true →
        jgetPath (removeUnusedComponents (.obj sfs)) ["components", "schemas", m] =
          some bodym) ∧
    (∀ n, n ∉ referencedSchemas (.obj sfs) table →
      jgetPath (removeUnusedComponents (.obj sfs)) ["components", "schemas", n] =
        none) ∧
    (∀ n body, jget table n = some body → truthy body = false →
      jgetPath (removeUnusedComponents (.obj sfs)) ["components", "schemas", n] =
        none) := by
  obtain ⟨hinit, hclosed⟩ := referencedSchemas_props (Json.obj sfs) table
  refine ⟨?_, ?_, ?_, ?_⟩
  · intro n hn body hbody htr
    rw [jgetPath_removeUnusedComponents sfs compsFs table hc hs n]
    rw [if_pos ⟨hinit n hn, by rw [hbody]; exact htr⟩, hbody]
  · intro n hn body hbody m hm bodym hbm htr
    rw [jgetPath_removeUnusedComponents sfs compsFs table hc hs m]
    rw [if_pos ⟨hclosed n hn body hbody m hm, by rw [hbm]; exact htr⟩, hbm]
  · intro n hn
    rw [jgetPath_removeUnusedComponents sfs compsFs table hc hs n]
    rw [if_neg (fun h => hn h.1)]
  · intro n body hbody htr
    have hcond : ¬(n ∈ referencedSchemas (Json.obj sfs) table ∧
        truthyOpt (jget table n) = true) := by
      rintro ⟨_, htru⟩
      rw [hbody] at htru
      have h2 : truthy body = true := htru
      rw [htr] at h2
      exact Bool.noConfusion h2
    rw [jgetPath_removeUnusedComponents sfs compsFs table hc hs n, if_neg hcond]

theorem C1_witness :
    jgetPath (removeUnusedComponents (.obj usedChainFields))
      ["components", "schemas", "A"] =
      some (.obj [("$ref", .str "#/components/schemas/B")]) ∧
    jgetPath (removeUnusedComponents (.obj usedChainFields))
      ["components", "schemas", "B"] = some (.obj [("type", .str "object")]) ∧
    jgetPath (removeUnusedComponents (.obj usedChainFields))
      ["components", "schemas", "C"] = none ∧
    jgetPath (removeUnusedComponents (.obj usedChainFields))
      ["components", "schemas", "D"] = none := by
  obtain ⟨h1, h2, h3, h4⟩ := C1_reachable_schemas_kept usedChainFields
    [("schemas", .obj usedChainTable)] usedChainTable rfl rfl
  refine ⟨?_, ?_, ?_, ?_⟩
  · exact h1 "A" (by decide) (.obj [("$ref", .str "#/components/schemas/B")]) rfl rfl
  · exact h2 "A" (by decide) (.obj [("$ref", .str "#/components/schemas/B")]) rfl
      "B" (by decide) (.obj [("type", .str "object")]) rfl rfl
  · exact h3 "C" (by decide)
  · exact h4 "D" (.bool false) rfl rfl

/-! ### C5: the extraction threshold and the rewrite characterization -/

mutual
/-- The occurrence count mirrored off `replaceWithRef` in
`extractCommonSchemas`: positions with a `schema` key holding a non-`$ref`
object whose canonical key is `ckey`, outside `components.schemas`.  Like
the replacement scan — and unlike the collection scan — it applies no
worth-extracting filter. -/
def countSchemaOcc (ckey : String) (j : Json) (p : List String) : Nat :=
  match j with
  | .arr xs => countSchemaOccArr ckey xs p 0
  | .obj fs => countSchemaOccObj ckey fs p
  | _ => 0
def countSchemaOccArr (ckey : String) (xs : List Json) (p : List String) (i : Nat) : Nat :=
  match xs with
  | [] => 0
  | x :: rest =>
    countSchemaOcc ckey x (p ++ [toString i]) + countSchemaOccArr ckey rest p (i + 1)
def countSchemaOccObj (ckey : String) (fs : JObj) (p : List String) : Nat :=
  match fs with
  | [] => 0
  | (k, v) :: rest =>
    (if underComponentsSchemas p then 0
     else if k = "schema" && isObject v && !hasRefJ v then
       if createSchemaKey v = ckey then 1 else 0
     else countSchemaOcc ckey v (p ++ [k])) + countSchemaOccObj ckey rest p
end

/-- The per-entry branch of `replaceSchemaObj`, named for reuse in proofs. -/
def replaceSchemaEntry (ckey rn k : String) (v : Json) (p : List String) : Json × Nat :=
  if underComponentsSchemas p then (v, 0)
  else if k = "schema" && isObject v && !hasRefJ v then
    if createSchemaKey v = ckey then
      ((Json.obj [("$ref", .str ("#/components/schemas/" ++ rn))]), 1)
    else (v, 0)
  else replaceSchema ckey rn v (p ++ [k])

/-- The per-entry term of `countSchemaOccObj`, named for reuse in proofs. -/
def countSchemaEntry (ckey k : String) (v : Json) (p : List String) : Nat :=
  if underComponentsSchemas p then 0
  else if k = "schema" && isObject v && !hasRefJ v then
    if createSchemaKey v = ckey then 1 else 0
  else countSchemaOcc ckey v (p ++ [k])

theorem replaceSchemaObj_cons (ckey rn k : String) (v : Json) (rest : JObj)
    (p : List String) :
    replaceSchemaObj ckey rn ((k, v) :: rest) p =
      ((k, (replaceSchemaEntry ckey rn k v p).1) :: (replaceSchemaObj ckey rn rest p).1,
       (replaceSchemaEntry ckey rn k v p).2 + (replaceSchemaObj ckey rn rest p).2) := rfl

theorem countSchemaOccObj_cons (ckey k : String) (v : Json) (rest : JObj)
    (p : List String) :
    countSchemaOccObj ckey ((k, v) :: rest) p =
      countSchemaEntry ckey k v p + countSchemaOccObj ckey rest p := rfl

mutual
/-- The occurrence count mirrored off `replaceWithRef` in
`extractCommonResponses`: object values under a three-digit key whose parent
key is `responses`, carrying canonical key `ckey`. -/
def countRespOcc (ckey : String) (j : Json) (p : List String) : Nat :=
  match j with
  | .arr xs => countRespOccArr ckey xs p 0
  | .obj fs => countRespOccObj ckey fs p
  | _ => 0
def countRespOccArr (ckey : String) (xs : List Json) (p : List String) (i : Nat) : Nat :=
  match xs with
  | [] => 0
  | x :: rest =>
    countRespOcc ckey x (p ++ [toString i]) + countRespOccArr ckey rest p (i + 1)
def countRespOccObj (ckey : String) (fs : JObj) (p : List String) : Nat :=
  match fs with
  | [] => 0
  | (k, v) :: rest =>
    (if p.getLast? = some "responses" && isThreeDigits k && isObject v then
       if createResponseKey v = ckey then 1 else 0
     else countRespOcc ckey v (p ++ [k])) + countRespOccObj ckey rest p
end

/-- The per-entry branch of `replaceRespObj`, named for reuse in proofs. -/
def replaceRespEntry (ckey rn k : String) (v : Json) (p : List String) : Json × Nat :=
  if p.getLast? = some "responses" && isThreeDigits k && isObject v then
    if createResponseKey v = ckey then
      ((Json.obj [("$ref", .str ("#/components/responses/" ++ rn))]), 1)
    else (v, 0)
  else replaceResp ckey rn v (p ++ [k])

/-- The per-entry term of `countRespOccObj`, named for reuse in proofs. -/
def countRespEntry (ckey k : String) (v : Json) (p : List String) : Nat :=
  if p.getLast? = some "responses" && isThreeDigits k && isObject v then
    if createResponseKey v = ckey then 1 else 0
  else countRespOcc ckey v (p ++ [k])

theorem replaceRespObj_cons (ckey rn k : String) (v : Json) (rest : JObj)
    (p : List String) :
    replaceRespObj ckey rn ((k, v) :: rest) p =
      ((k, (replaceRespEntry ckey rn k v p).1) :: (replaceRespObj ckey rn rest p).1,
       (replaceRespEntry ckey rn k v p).2 + (replaceRespObj ckey rn rest p).2) := rfl

theorem countRespOccObj_cons (ckey k : String) (v : Json) (rest : JObj)
    (p : List String) :
    countRespOccObj ckey ((k, v) :: rest) p =
      countRespEntry ckey k v p + countRespOccObj ckey rest p := rfl

mutual
theorem replaceSchema_count (ckey rn : String) :
    ∀ (j : Json) (p : List String), (replaceSchema ckey rn j p).2 = countSchemaOcc ckey j p
  | .str _, _ => rfl
  | .num _, _ => rfl
  | .bool _, _ => rfl
  | .null, _ => rfl
  | .arr xs, p => by
    show (replaceSchemaArr ckey rn xs p 0).2 = countSchemaOccArr ckey xs p 0
    exact replaceSchemaArr_count ckey rn xs p 0
  | .obj fs, p => by
    show (replaceSchemaObj ckey rn fs p).2 = countSchemaOccObj ckey fs p
    exact replaceSchemaObj_count ckey rn fs p
theorem replaceSchemaArr_count (ckey rn : String) :
    ∀ (xs : List Json) (p : List String) (i : Nat),
      (replaceSchemaArr ckey rn xs p i).2 = countSchemaOccArr ckey xs p i
  | [], _, _ => rfl
  | x :: rest, p, i => by
    show (replaceSchema ckey rn x (p ++ [toString i])).2 +
        (replaceSchemaArr ckey rn rest p (i + 1)).2 =
      countSchemaOcc ckey x (p ++ [toString i]) + countSchemaOccArr ckey rest p (i + 1)
    rw [replaceSchema_count ckey rn x (p ++ [toString i]),
      replaceSchemaArr_count ckey rn rest p (i + 1)]
theorem replaceSchemaObj_count (ckey rn : String) :
    ∀ (fs : JObj) (p : List String),
      (replaceSchemaObj ckey rn fs p).2 = countSchemaOccObj ckey fs p
  | [], _ => rfl
  | (k, v) :: rest, p => by
    rw [replaceSchemaObj_cons, countSchemaOccObj_cons]
    dsimp only
    rw [replaceSchemaObj_count ckey rn rest p]
    have he : (replaceSchemaEntry ckey rn k v p).2 = countSchemaEntry ckey k v p := by
      unfold replaceSchemaEntry countSchemaEntry
      split
      · rfl
      · split
        · split
          · rfl
          · rfl
        · exact replaceSchema_count ckey rn v (p ++ [k])
    rw [he]
end

mutual
theorem replaceResp_count (ckey rn : String) :
    ∀ (j : Json) (p : List String), (replaceResp ckey rn j p).2 = countRespOcc ckey j p
  | .str _, _ => rfl
  | .num _, _ => rfl
  | .bool _, _ => rfl
  | .null, _ => rfl
  | .arr xs, p => by
    show (replaceRespArr ckey rn xs p 0).2 = countRespOccArr ckey xs p 0
    exact replaceRespArr_count ckey rn xs p 0
  | .obj fs, p => by
    show (replaceRespObj ckey rn fs p).2 = countRespOccObj ckey fs p
    exact replaceRespObj_count ckey rn fs p
theorem replaceRespArr_count (ckey rn : String) :
    ∀ (xs : List Json) (p : List String) (i : Nat),
      (replaceRespArr ckey rn xs p i).2 = countRespOccArr ckey xs p i
  | [], _, _ => rfl
  | x :: rest, p, i => by
    show (replaceResp ckey rn x (p ++ [toString i])).2 +
        (replaceRespArr ckey rn rest p (i + 1)).2 =
      countRespOcc ckey x (p ++ [toString i]) + countRespOccArr ckey rest p (i + 1)
    rw [replaceResp_count ckey rn x (p ++ [toString i]),
      replaceRespArr_count ckey rn rest p (i + 1)]
theorem replaceRespObj_count (ckey rn : String) :
    ∀ (fs : JObj) (p : List String),
      (replaceRespObj ckey rn fs p).2 = countRespOccObj ckey fs p
  | [], _ => rfl
  | (k, v) :: rest, p => by
    rw [replaceRespObj_cons, countRespOccObj_cons]
    dsimp only
    rw [replaceRespObj_count ckey rn rest p]
    have he : (replaceRespEntry ckey rn k v p).2 = countRespEntry ckey k v p := by
      unfold replaceRespEntry countRespEntry
      split
      · split
        · rfl
        · rfl
      · exact replaceResp_count ckey rn v (p ++ [k])
    rw [he]
end

theorem jget_replaceSchemaObj_isSome (ckey rn : String) :
    ∀ (fs : JObj) (p : List String) (k : String),
      (jget (replaceSchemaObj ckey rn fs p).1 k).isSome = (jget fs k).isSome
  | [], _, _ => rfl
  | (k2, v) :: rest, p, k => by
    rw [replaceSchemaObj_cons]
    dsimp only
    unfold jget
    by_cases h2 : k2 = k
    · rw [if_pos h2, if_pos h2]
      rfl
    · rw [if_neg h2, if_neg h2]
      exact jget_replaceSchemaObj_isSome ckey rn rest p k

theorem hasRefJ_replaceSchema (ckey rn : String) (v : Json) (q : List String) :
    hasRefJ (replaceSchema ckey rn v q).1 = hasRefJ v := by
  cases v with
  | obj fs =>
    show (jget (replaceSchemaObj ckey rn fs q).1 "$ref").isSome = (jget fs "$ref").isSome
    exact jget_replaceSchemaObj_isSome ckey rn fs q "$ref"
  | arr xs => rfl
  | str s => rfl
  | num n => rfl
  | bool b => rfl
  | null => rfl

theorem countSchemaOcc_refObj (ckey : String) (s : String) (q : List String) :
    countSchemaOcc ckey (Json.obj [("$ref", Json.str s)]) q = 0 := by
  show countSchemaEntry ckey "$ref" (Json.str s) q + 0 = 0
  unfold countSchemaEntry
  by_cases h1 : underComponentsSchemas q = true
  · rw [if_pos h1]
  · rw [if_neg h1, if_neg (by simp)]
    rfl

theorem countSchemaEntry_replace (ckey rn k : String) (v : Json) (p : List String)
    (hrec : countSchemaOcc ckey (replaceSchema ckey rn v (p ++ [k])).1 (p ++ [k]) = 0) :
    countSchemaEntry ckey k (replaceSchemaEntry ckey rn k v p).1 p = 0 := by
  unfold countSchemaEntry replaceSchemaEntry
  by_cases h1 : underComponentsSchemas p = true
  · rw [if_pos h1]
  · rw [if_neg h1, if_neg h1]
    by_cases h2 : (k = "schema" && isObject v && !hasRefJ v) = true
    · rw [if_pos h2]
      by_cases h3 : createSchemaKey v = ckey
      · rw [if_pos h3]
        dsimp only
        rw [if_neg (by simp [hasRefJ, hasKey, jget])]
        exact countSchemaOcc_refObj ckey ("#/components/schemas/" ++ rn) (p ++ [k])
      · rw [if_neg h3]
        dsimp only
        rw [if_pos h2, if_neg h3]
    · rw [if_neg h2]
      have hcond2 : ¬((k = "schema" && isObject (replaceSchema ckey rn v (p ++ [k])).1 &&
          !hasRefJ (replaceSchema ckey rn v (p ++ [k])).1) = true) := by
        rw [isObject_replaceSchema, hasRefJ_replaceSchema]
        exact h2
      rw [if_neg hcond2]
      exact hrec

mutual
theorem replaceSchema_complete (ckey rn : String) :
    ∀ (j : Json) (p : List String),
      countSchemaOcc ckey (replaceSchema ckey rn j p).1 p = 0
  | .str _, _ => rfl
  | .num _, _ => rfl
  | .bool _, _ => rfl
  | .null, _ => rfl
  | .arr xs, p => by
    show countSchemaOccArr ckey (replaceSchemaArr ckey rn xs p 0).1 p 0 = 0
    exact replaceSchemaArr_complete ckey rn xs p 0
  | .obj fs, p => by
    show countSchemaOccObj ckey (replaceSchemaObj ckey rn fs p).1 p = 0
    exact replaceSchemaObj_complete ckey rn fs p
theorem replaceSchemaArr_complete (ckey rn : String) :
    ∀ (xs : List Json) (p : List String) (i : Nat),
      countSchemaOccArr ckey (replaceSchemaArr ckey rn xs p i).1 p i = 0
  | [], _, _ => rfl
  | x :: rest, p, i => by
    show countSchemaOcc ckey (replaceSchema ckey rn x (p ++ [toString i])).1
        (p ++ [toString i]) +
      countSchemaOccArr ckey (replaceSchemaArr ckey rn rest p (i + 1)).1 p (i + 1) = 0
    rw [replaceSchema_complete ckey rn x (p ++ [toString i]),
      replaceSchemaArr_complete ckey rn rest p (i + 1)]
theorem replaceSchemaObj_complete (ckey rn : String) :
    ∀ (fs : JObj) (p : List String),
      countSchemaOccObj ckey (replaceSchemaObj ckey rn fs p).1 p = 0
  | [], _ => rfl
  | (k, v) :: rest, p => by
    rw [replaceSchemaObj_cons]
    dsimp only
    rw [countSchemaOccObj_cons, replaceSchemaObj_complete ckey rn rest p,
      countSchemaEntry_replace ckey rn k v p
        (replaceSchema_complete ckey rn v (p ++ [k]))]
end

theorem countRespEntry_replace (ckey rn k : String) (v : Json) (p : List String)
    (hcol : createResponseKey
      (Json.obj [("$ref", Json.str ("#/components/responses/" ++ rn))]) ≠ ckey)
    (hrec : countRespOcc ckey (replaceResp ckey rn v (p ++ [k])).1 (p ++ [k]) = 0) :
    countRespEntry ckey k (replaceRespEntry ckey rn k v p).1 p = 0 := by
  unfold countRespEntry replaceRespEntry
  by_cases h2 : (p.getLast? = some "responses" && isThreeDigits k && isObject v) = true
  · rw [if_pos h2]
    have hab : (p.getLast? = some "responses" && isThreeDigits k) = true := by
      cases hq : (p.getLast? = some "responses" && isThreeDigits k) with
      | true => rfl
      | false =>
        rw [hq] at h2
        simp at h2
    by_cases h3 : createResponseKey v = ckey
    · rw [if_pos h3]
      dsimp only
      rw [if_pos (by rw [hab]; rfl), if_neg hcol]
    · rw [if_neg h3]
      dsimp only
      rw [if_pos h2, if_neg h3]
  · rw [if_neg h2]
    have hcond2 : ¬((p.getLast? = some "responses" && isThreeDigits k &&
        isObject (replaceResp ckey rn v (p ++ [k])).1) = true) := by
      rw [isObject_replaceResp]
      exact h2
    rw [if_neg hcond2]
    exact hrec

mutual
theorem replaceResp_complete (ckey rn : String)
    (hcol : createResponseKey
      (Json.obj [("$ref", Json.str ("#/components/responses/" ++ rn))]) ≠ ckey) :
    ∀ (j : Json) (p : List String),
      countRespOcc ckey (replaceResp ckey rn j p).1 p = 0
  | .str _, _ => rfl
  | .num _, _ => rfl
  | .bool _, _ => rfl
  | .null, _ => rfl
  | .arr xs, p => by
    show countRespOccArr ckey (replaceRespArr ckey rn xs p 0).1 p 0 = 0
    exact replaceRespArr_complete ckey rn hcol xs p 0
  | .obj fs, p => by
    show countRespOccObj ckey (replaceRespObj ckey rn fs p).1 p = 0
    exact replaceRespObj_complete ckey rn hcol fs p
theorem replaceRespArr_complete (ckey rn : String)
    (hcol : createResponseKey
      (Json.obj [("$ref", Json.str ("#/components/responses/" ++ rn))]) ≠ ckey) :
    ∀ (xs : List Json) (p : List String) (i : Nat),
      countRespOccArr ckey (replaceRespArr ckey rn xs p i).1 p i = 0
  | [], _, _ => rfl
  | x :: rest, p, i => by
    show countRespOcc ckey (replaceResp ckey rn x (p ++ [toString i])).1
        (p ++ [toString i]) +
      countRespOccArr ckey (replaceRespArr ckey rn rest p (i + 1)).1 p (i + 1) = 0
    rw [replaceResp_complete ckey rn hcol x (p ++ [toString i]),
      replaceRespArr_complete ckey rn hcol rest p (i + 1)]
theorem replaceRespObj_complete (ckey rn : String)
    (hcol : createResponseKey
      (Json.obj [("$ref", Json.str ("#/components/responses/" ++ rn))]) ≠ ckey) :
    ∀ (fs : JObj) (p : List String),
      countRespOccObj ckey (replaceRespObj ckey rn fs p).1 p = 0
  | [], _ => rfl
  | (k, v) :: rest, p => by
    rw [replaceRespObj_cons]
    dsimp only
    rw [countRespOccObj_cons, replaceRespObj_complete ckey rn hcol rest p,
      countRespEntry_replace ckey rn k v p hcol
        (replaceResp_complete ckey rn hcol v (p ++ [k]))]
end

theorem assignSchemaRefNames_nil :
    ∀ (acc : List (String × Json × Nat)), (∀ g ∈ acc, g.2.2 < 3) →
      ∀ c, assignSchemaRefNames acc c = []
  | [], _, _ => rfl
  | (ckey, rep, n) :: rest, h, c => by
    have hn : n < 3 := by simpa using h (ckey, rep, n) (List.mem_cons_self _ _)
    unfold assignSchemaRefNames
    rw [if_neg (by omega)]
    exact assignSchemaRefNames_nil rest (fun g hg => h g (List.mem_cons_of_mem _ hg)) c

theorem assignRespRefNames_nil :
    ∀ (acc : List (String × Json × Nat)), (∀ g ∈ acc, g.2.2 < 3) →
      ∀ c, assignRespRefNames acc c = []
  | [], _, _ => rfl
  | (ckey, rep, n) :: rest, h, c => by
    have hn : n < 3 := by simpa using h (ckey, rep, n) (List.mem_cons_self _ _)
    unfold assignRespRefNames
    rw [if_neg (by omega)]
    exact assignRespRefNames_nil rest (fun g hg => h g (List.mem_cons_of_mem _ hg)) c

theorem extractCommonSchemas_nil (spec : Json)
    (h : ∀ g ∈ collectSchemas spec [] [], g.2.2 < 3) :
    extractCommonSchemas spec = (spec, 0) := by
  have hnil := assignSchemaRefNames_nil (collectSchemas spec [] []) h 0
  unfold extractCommonSchemas
  cases hp : jgetJ spec "paths" with
  | none => rfl
  | some v =>
    cases v with
    | obj pfs =>
      dsimp only
      rw [hnil, if_pos rfl]
    | str s => rfl
    | num x => rfl
    | bool b => rfl
    | null => rfl
    | arr xs => rfl

theorem extractCommonResponses_nil (spec : Json)
    (h : ∀ g ∈ collectResponses spec [] [], g.2.2 < 3) :
    extractCommonResponses spec = (spec, 0) := by
  have hnil := assignRespRefNames_nil (collectResponses spec [] []) h 0
  unfold extractCommonResponses
  cases hp : jgetJ spec "paths" with
  | none => rfl
  | some v =>
    cases v with
    | obj pfs =>
      dsimp only
      rw [hnil, if_pos rfl]
    | str s => rfl
    | num x => rfl
    | bool b => rfl
    | null => rfl
    | arr xs => rfl

theorem jset_absent :
    ∀ (fs : JObj) (k : String) (v : Json), jget fs k = none →
      jset fs k v = fs ++ [(k, v)]
  | [], _, _, _ => rfl
  | (k2, v2) :: rest, k, v, h => by
    have hk : ¬(k2 = k) := by
      intro he
      unfold jget at h
      rw [if_pos he] at h
      exact Option.noConfusion h
    have h2 : jget rest k = none := by
      unfold jget at h
      rw [if_neg hk] at h
      exact h
    unfold jset
    rw [if_neg hk, jset_absent rest k v h2]
    rfl

theorem jset_jset_self :
    ∀ (fs : JObj) (k : String) (v w : Json), jset (jset fs k v) k w = jset fs k w
  | [], k, v, w => by
    show jset [(k, v)] k w = [(k, w)]
    unfold jset
    rw [if_pos rfl]
  | (k2, v2) :: rest, k, v, w => by
    show jset (if k2 = k then (k2, v) :: rest else (k2, v2) :: jset rest k v) k w = _
    by_cases h : k2 = k
    · rw [if_pos h]
      unfold jset
      rw [if_pos h, if_pos h]
    · rw [if_neg h]
      unfold jset
      rw [if_neg h, if_neg h, jset_jset_self rest k v w]

theorem countSchemaOccObj_append (ckey : String) :
    ∀ (fs1 fs2 : JObj) (p : List String),
      countSchemaOccObj ckey (fs1 ++ fs2) p =
        countSchemaOccObj ckey fs1 p + countSchemaOccObj ckey fs2 p
  | [], fs2, p => (Nat.zero_add _).symm
  | (k, v) :: rest, fs2, p => by
    rw [List.cons_append, countSchemaOccObj_cons, countSchemaOccObj_cons,
      countSchemaOccObj_append ckey rest fs2 p, Nat.add_assoc]

theorem replaceSchemaObj_under (ckey rn : String) :
    ∀ (fs : JObj) (p : List String), underComponentsSchemas p = true →
      (replaceSchemaObj ckey rn fs p).1 = fs
  | [], _, _ => rfl
  | (k, v) :: rest, p, hp => by
    rw [replaceSchemaObj_cons]
    dsimp only
    have he : replaceSchemaEntry ckey rn k v p = (v, 0) := by
      unfold replaceSchemaEntry
      rw [if_pos hp]
    rw [he, replaceSchemaObj_under ckey rn rest p hp]

theorem jget_replaceSchemaObj (ckey rn : String) :
    ∀ (fs : JObj) (p : List String) (k : String),
      underComponentsSchemas p = false → ¬(k = "schema") →
      jget (replaceSchemaObj ckey rn fs p).1 k =
        (jget fs k).map (fun v => (replaceSchema ckey rn v (p ++ [k])).1)
  | [], _, _, _, _ => rfl
  | (k2, v) :: rest, p, k, hp, hk => by
    rw [replaceSchemaObj_cons]
    dsimp only
    unfold jget
    by_cases h2 : k2 = k
    · rw [if_pos h2, if_pos h2]
      subst h2
      have he : replaceSchemaEntry ckey rn k2 v p =
          replaceSchema ckey rn v (p ++ [k2]) := by
        unfold replaceSchemaEntry
        rw [if_neg (by simp [hp]), if_neg (by simp [hk])]
      rw [he]
      rfl
    · rw [if_neg h2, if_neg h2]
      exact jget_replaceSchemaObj ckey rn rest p k hp hk

theorem extractCommonSchemas_single (sfs : JObj) (ckey name : String) (rep : Json)
    (hcomp : jget sfs "components" = none)
    (hpaths : ∃ pfs, jget sfs "paths" = some (.obj pfs))
    (hassign : assignSchemaRefNames (collectSchemas (.obj sfs) [] []) 0 =
      [(ckey, rep, name)]) :
    extractCommonSchemas (.obj sfs) =
      ((replaceSchema ckey name
        (.obj (jset sfs "components" (.obj [("schemas", .obj [(name, rep)])]))) []).1,
       countSchemaOcc ckey (.obj sfs) []) ∧
    jgetPath (extractCommonSchemas (.obj sfs)).1 ["components", "schemas", name] =
      some rep ∧
    countSchemaOcc ckey (extractCommonSchemas (.obj sfs)).1 [] = 0 := by
  obtain ⟨pfs, hp⟩ := hpaths
  have hsp1 : ensureComponentsField (Json.obj sfs) "schemas" =
      Json.obj (jset sfs "components" (Json.obj [("schemas", Json.obj [])])) := by
    unfold ensureComponentsField
    have hc2 : jgetJ (Json.obj sfs) "components" = none := hcomp
    have hcnd : (!truthyOpt (jgetJ (Json.obj sfs) "components")) = true := by
      rw [hc2]
      rfl
    rw [if_pos hcnd]
    unfold ensureComponentsStep
    have hc3 : jgetJ (jsetJ (Json.obj sfs) "components" (Json.obj [])) "components" =
        some (Json.obj []) := by
      show jget (jset sfs "components" (Json.obj [])) "components" = _
      exact jget_jset_self sfs "components" _
    rw [hc3]
    dsimp only
    rw [if_pos (by rfl)]
    show Json.obj (jset (jset sfs "components" (Json.obj [])) "components"
      (Json.obj [("schemas", Json.obj [])])) = _
    rw [jset_jset_self]
  have hst1 : setComponentsEntry
      (Json.obj (jset sfs "components" (Json.obj [("schemas", Json.obj [])])))
      "schemas" name rep =
      Json.obj (jset sfs "components"
        (Json.obj [("schemas", Json.obj [(name, rep)])])) := by
    unfold setComponentsEntry
    have hc4 : jgetJ (Json.obj (jset sfs "components"
        (Json.obj [("schemas", Json.obj [])]))) "components" =
        some (Json.obj [("schemas", Json.obj [])]) := by
      show jget (jset sfs "components" _) "components" = _
      exact jget_jset_self sfs "components" _
    rw [hc4]
    dsimp only
    have hc5 : jgetJ (Json.obj [("schemas", Json.obj [])]) "schemas" =
        some (Json.obj []) := rfl
    rw [hc5]
    dsimp only
    show Json.obj (jset (jset sfs "components" (Json.obj [("schemas", Json.obj [])]))
      "components" (Json.obj [("schemas", Json.obj [(name, rep)])])) = _
    rw [jset_jset_self]
  have hpJ : jgetJ (Json.obj sfs) "paths" = some (Json.obj pfs) := hp
  have hext : extractCommonSchemas (Json.obj sfs) =
      ((replaceSchema ckey name
        (Json.obj (jset sfs "components"
          (Json.obj [("schemas", Json.obj [(name, rep)])]))) []).1,
       0 + (replaceSchema ckey name
        (Json.obj (jset sfs "components"
          (Json.obj [("schemas", Json.obj [(name, rep)])]))) []).2) := by
    unfold extractCommonSchemas
    rw [hpJ]
    dsimp only
    rw [hassign, if_neg (List.cons_ne_nil _ _), List.foldl_cons, List.foldl_nil]
    dsimp only
    rw [hsp1, hst1]
  have hcnt : (replaceSchema ckey name
      (Json.obj (jset sfs "components"
        (Json.obj [("schemas", Json.obj [(name, rep)])]))) []).2 =
      countSchemaOcc ckey (Json.obj sfs) [] := by
    rw [replaceSchema_count]
    show countSchemaOccObj ckey
      (jset sfs "components" (Json.obj [("schemas", Json.obj [(name, rep)])])) [] =
      countSchemaOccObj ckey sfs []
    rw [jset_absent sfs "components" _ hcomp, countSchemaOccObj_append]
    have hz : countSchemaOccObj ckey
        [("components", Json.obj [("schemas", Json.obj [(name, rep)])])] [] = 0 := by
      simp [countSchemaOcc, countSchemaOccObj, underComponentsSchemas]
    rw [hz, Nat.add_zero]
  have hb : jgetPath ((replaceSchema ckey name
      (Json.obj (jset sfs "components"
        (Json.obj [("schemas", Json.obj [(name, rep)])]))) []).1)
      ["components", "schemas", name] = some rep := by
    rw [jgetPath_cons]
    have hg1 : jgetJ ((replaceSchema ckey name
        (Json.obj (jset sfs "components"
          (Json.obj [("schemas", Json.obj [(name, rep)])]))) []).1) "components" =
        some ((replaceSchema ckey name
          (Json.obj [("schemas", Json.obj [(name, rep)])]) ["components"]).1) := by
      show jget (replaceSchemaObj ckey name
        (jset sfs "components" (Json.obj [("schemas", Json.obj [(name, rep)])])) []).1
        "components" = _
      rw [jget_replaceSchemaObj ckey name _ [] "components" rfl (by decide),
        jget_jset_self]
      rfl
    rw [hg1]
    simp only [bind_some_eq]
    rw [jgetPath_cons]
    have hg2 : jgetJ ((replaceSchema ckey name
        (Json.obj [("schemas", Json.obj [(name, rep)])]) ["components"]).1) "schemas" =
        some ((replaceSchema ckey name (Json.obj [(name, rep)])
          ["components", "schemas"]).1) := by
      show jget (replaceSchemaObj ckey name [("schemas", Json.obj [(name, rep)])]
        ["components"]).1 "schemas" = _
      rw [jget_replaceSchemaObj ckey name _ ["components"] "schemas" rfl (by decide)]
      rfl
    rw [hg2]
    simp only [bind_some_eq]
    rw [jgetPath_cons]
    have hg3 : jgetJ ((replaceSchema ckey name (Json.obj [(name, rep)])
        ["components", "schemas"]).1) name = some rep := by
      show jget (replaceSchemaObj ckey name [(name, rep)]
        ["components", "schemas"]).1 name = _
      rw [replaceSchemaObj_under ckey name [(name, rep)] ["components", "schemas"] rfl]
      show (if name = name then some rep else jget [] name) = some rep
      rw [if_pos rfl]
    rw [hg3]
    rfl
  refine ⟨?_, ?_, ?_⟩
  · rw [hext, Nat.zero_add, hcnt]
  · rw [hext]
    exact hb
  · rw [hext]
    exact replaceSchema_complete ckey name _ []

/-- An inline schema that passes the worth-extracting filter: typed object
with `id` and `name` properties, raw serialization over 50 characters. -/
def worthSchema : Json := .obj [("type", .str "object"),
  ("properties", .obj [("id", .obj [("type", .str "string")]),
                       ("name", .obj [("type", .str "string")])])]

def worthPathsFields : JObj :=
  [("/a", .obj [("get", .obj [("responses", .obj [("200", .obj [("content", .obj
      [("application/json", .obj [("schema", worthSchema)])])])])])]),
   ("/b", .obj [("get", .obj [("responses", .obj [("200", .obj [("content", .obj
      [("application/json", .obj [("schema", worthSchema)])])])])])]),
   ("/c", .obj [("get", .obj [("responses", .obj [("200", .obj [("content", .obj
      [("application/json", .obj [("schema", worthSchema)])])])])])])]

/-- A document carrying the same worth-extracting inline schema at three
occurrence positions. -/
def worthTripleFields : JObj :=
  [("openapi", .str "3.0.0"), ("info", .obj [("title", .str "t")]),
   ("paths", .obj worthPathsFields)]

/-- C5 (amended): in each extraction pass, if no canonical structure reaches
3 collected occurrences — occurrences are counted by the collection scan,
which for schemas applies the worth-extracting filter — the pass returns the
document unchanged with count 0; the rewrite step replaces exactly the
positions matching its own occurrence condition and canonical key, returns
their number, and leaves no such position behind (for responses, provided
the inserted reference stub's own canonical key differs from the extracted
one); and a single qualifying schema group on a document without a
`components` section is extracted once into `components.schemas` under its
generated name with the representative copy, every matching occurrence
rewritten, and the pass returns the number of matching occurrence positions
of the whole document.  (The spec's occurrence notion differs from the
rewrite step's: the worth filter is applied only at collection, so a
canonical structure with 3 equal positions of which fewer than 3 pass the
filter is not extracted.) -/
theorem C5_extraction_threshold :
    (∀ spec : Json, (∀ g ∈ collectResponses spec [] [], g.2.2 < 3) →
      extractCommonResponses spec = (spec, 0)) ∧
    (∀ spec : Json, (∀ g ∈ collectSchemas spec [] [], g.2.2 < 3) →
      extractCommonSchemas spec = (spec, 0)) ∧
    (∀ (ckey rn : String) (j : Json) (p : List String),
      (replaceSchema ckey rn j p).2 = countSchemaOcc ckey j p) ∧
    (∀ (ckey rn : String) (j : Json) (p : List String),
      countSchemaOcc ckey (replaceSchema ckey rn j p).1 p = 0) ∧
    (∀ (ckey rn : String) (j : Json) (p : List String),
      (replaceResp ckey rn j p).2 = countRespOcc ckey j p) ∧
    (∀ (ckey rn : String) (j : Json) (p : List String),
      createResponseKey
        (Json.obj [("$ref", Json.str ("#/components/responses/" ++ rn))]) ≠ ckey →
      countRespOcc ckey (replaceResp ckey rn j p).1 p = 0) ∧
    (∀ (sfs : JObj) (ckey name : String) (rep : Json),
      jget sfs "components" = none →
      (∃ pfs, jget sfs "paths" = some (.obj pfs)) →
      assignSchemaRefNames (collectSchemas (.obj sfs) [] []) 0 = [(ckey, rep, name)] →
      extractCommonSchemas (.obj sfs) =
        ((replaceSchema ckey name
          (.obj (jset sfs "components" (.obj [("schemas", .obj [(name, rep)])]))) []).1,
         countSchemaOcc ckey (.obj sfs) []) ∧
      jgetPath (extractCommonSchemas (.obj sfs)).1 ["components", "schemas", name] =
        some rep ∧
      countSchemaOcc ckey (extractCommonSchemas (.obj sfs)).1 [] = 0) :=
  ⟨fun spec h => extractCommonResponses_nil spec h,
   fun spec h => extractCommonSchemas_nil spec h,
   fun ckey rn j p => replaceSchema_count ckey rn j p,
   fun ckey rn j p => replaceSchema_complete ckey rn j p,
   fun ckey rn j p => replaceResp_count ckey rn j p,
   fun ckey rn j p hcol => replaceResp_complete ckey rn hcol j p,
   fun sfs ckey name rep hcomp hpaths hassign =>
     extractCommonSchemas_single sfs ckey name rep hcomp hpaths hassign⟩

set_option maxRecDepth 8000 in
theorem C5_witness :
    extractCommonSchemas (.obj worthTripleFields) =
      ((replaceSchema (createSchemaKey worthSchema) "IdNameResource"
        (.obj (jset worthTripleFields "components"
          (.obj [("schemas", .obj [("IdNameResource", worthSchema)])]))) []).1,
       countSchemaOcc (createSchemaKey worthSchema) (.obj worthTripleFields) []) ∧
    jgetPath (extractCommonSchemas (.obj worthTripleFields)).1
      ["components", "schemas", "IdNameResource"] = some worthSchema ∧
    countSchemaOcc (createSchemaKey worthSchema)
      (extractCommonSchemas (.obj worthTripleFields)).1 [] = 0 := by
  obtain ⟨h1, h2, h3, h4, h5, h6, h7⟩ := C5_extraction_threshold
  exact h7 worthTripleFields (createSchemaKey worthSchema) "IdNameResource" worthSchema
    rfl ⟨worthPathsFields, rfl⟩ (by decide)

end OpenapiMin
